import Mathlib

/-!
Verification of the Tetris gameplay core (`tetris.h` / `tetris.cpp`).

The development shallowly embeds the three classes of the source:

* `Piece`  — per-kind geometry, rotation by transpose/reverse, kick tables;
* `Board`  — the playfield grid (stored flat, with two hidden rows above the
  skyline), collision checks, piece motion, line detection and compaction;
* `TetrisState` — the game controller: timers (modelled as exact rationals),
  lock-delay state machine, line-clear pause and the two-half bag randomizer
  (`std::shuffle` is abstracted as an oracle of permutations, consumed in
  order, since the permutation it produces is implementation-defined).

Machine integers of the source are embedded as `Int`/`Nat` (no value in the
game approaches the `int` overflow range), `double` timers as `ℚ` (all the
constants are exact decimals and every operation used is +, /, comparison).
-/

/-- `TileColor` of tetris.h: seven colors plus the empty sentinel. -/
inductive TileColor where
  | kEmpty | kCyan | kBlue | kOrange | kYellow | kGreen | kPurple | kRed
  deriving DecidableEq, Repr

/-- `PieceKind` of tetris.h: seven tetromino kinds plus the none sentinel. -/
inductive PieceKind where
  | kNone | kPieceI | kPieceJ | kPieceL | kPieceO | kPieceS | kPieceT | kPieceZ
  deriving DecidableEq, Repr

/-- `Rotation` of tetris.h. -/
inductive Rotation where
  | kRight | kLeft
  deriving DecidableEq, Repr

/-- `Motion` of tetris.h. -/
inductive Motion where
  | kNone | kRight | kLeft
  deriving DecidableEq, Repr

/-- `color_(static_cast<TileColor>(kind))` in the `Piece` constructor:
the color enumerator with the same numeric value as the kind. -/
def pieceColor : PieceKind → TileColor
  | .kNone => .kEmpty
  | .kPieceI => .kCyan
  | .kPieceJ => .kBlue
  | .kPieceL => .kOrange
  | .kPieceO => .kYellow
  | .kPieceS => .kGreen
  | .kPieceT => .kPurple
  | .kPieceZ => .kRed

/-- The `Piece` class: kind, color, bounding box, current shape (a flat
`bBoxSide × bBoxSide` grid, row major), rotation state and kick tables. -/
structure Piece where
  kind : PieceKind
  color : TileColor
  nRows : Nat
  nCols : Nat
  bBoxSide : Nat
  initialShape : List TileColor
  shape : List TileColor
  state : Int
  kicksRight : List (List (Int × Int))
  kicksLeft : List (List (Int × Int))
  deriving DecidableEq, Repr

/-- `Piece::kNumStates_ = 4`. -/
def kNumStates : Int := 4

/-- `Piece::kKicksIRight_`. -/
def kKicksIRight : List (List (Int × Int)) :=
  [[(0, 0), (0, -2), (0, 1), (1, -2), (-2, 1)],
   [(0, 0), (0, -1), (0, 2), (-2, -1), (1, 2)],
   [(0, 0), (0, 2), (0, -1), (-1, 2), (2, -1)],
   [(0, 0), (0, 1), (0, -2), (2, 1), (-1, -2)]]

/-- `Piece::kKicksILeft_`. -/
def kKicksILeft : List (List (Int × Int)) :=
  [[(0, 0), (0, -1), (0, 2), (-2, -1), (1, 2)],
   [(0, 0), (0, 2), (0, -1), (-1, 2), (2, -1)],
   [(0, 0), (0, 1), (0, -2), (2, 1), (-1, -2)],
   [(0, 0), (0, -2), (0, 1), (1, -2), (-2, 1)]]

/-- `Piece::kKicksOtherRight_`. -/
def kKicksOtherRight : List (List (Int × Int)) :=
  [[(0, 0), (0, 1), (-1, -1), (2, 0), (2, -1)],
   [(0, 0), (0, 1), (1, 1), (-2, 0), (-2, 1)],
   [(0, 0), (0, 1), (-1, 1), (2, 0), (2, 1)],
   [(0, 0), (0, -1), (1, -1), (-2, 0), (-2, -1)]]

/-- `Piece::kicksOtherLeft_`. -/
def kicksOtherLeft : List (List (Int × Int)) :=
  [[(0, 0), (0, 1), (-1, 1), (2, 0), (2, 1)],
   [(0, 0), (0, -1), (1, 1), (-2, 0), (-2, 1)],
   [(0, 0), (0, -1), (-1, -1), (2, 0), (2, -1)],
   [(0, 0), (0, -1), (1, -1), (-2, 0), (-2, -1)]]

/-- The `Piece::Piece(PieceKind)` constructor: per-kind sizes, initial shape,
current shape, and the kick tables (none for the O and none kinds). -/
def mkPiece (kind : PieceKind) : Piece :=
  let e := TileColor.kEmpty
  let c := pieceColor kind
  let base : Piece :=
    { kind := kind
      color := c
      nRows := 0
      nCols := 0
      bBoxSide := 0
      initialShape := []
      shape := []
      state := 0
      kicksRight := []
      kicksLeft := [] }
  let base :=
    match kind with
    | .kNone => base
    | .kPieceI =>
        { base with
          nRows := 1
          nCols := 4
          bBoxSide := 4
          initialShape := [c, c, c, c]
          shape := [e, e, e, e, c, c, c, c, e, e, e, e, e, e, e, e] }
    | .kPieceJ =>
        { base with
          nRows := 2
          nCols := 3
          bBoxSide := 3
          initialShape := [c, e, e, c, c, c]
          shape := [c, e, e, c, c, c, e, e, e] }
    | .kPieceL =>
        { base with
          nRows := 2
          nCols := 3
          bBoxSide := 3
          initialShape := [e, e, c, c, c, c]
          shape := [e, e, c, c, c, c, e, e, e] }
    | .kPieceO =>
        { base with
          nRows := 2
          nCols := 2
          bBoxSide := 2
          initialShape := [c, c, c, c]
          shape := [c, c, c, c] }
    | .kPieceS =>
        { base with
          nRows := 2
          nCols := 3
          bBoxSide := 3
          initialShape := [e, c, c, c, c, e]
          shape := [e, c, c, c, c, e, e, e, e] }
    | .kPieceT =>
        { base with
          nRows := 2
          nCols := 3
          bBoxSide := 3
          initialShape := [e, c, e, c, c, c]
          shape := [e, c, e, c, c, c, e, e, e] }
    | .kPieceZ =>
        { base with
          nRows := 2
          nCols := 3
          bBoxSide := 3
          initialShape := [c, c, e, e, c, c]
          shape := [c, c, e, e, c, c, e, e, e] }
  if kind = .kPieceO ∨ kind = .kNone then base
  else if kind = .kPieceI then
    { base with kicksRight := kKicksIRight, kicksLeft := kKicksILeft }
  else
    { base with kicksRight := kKicksOtherRight, kicksLeft := kicksOtherLeft }

/-- `Piece::rotate`.  The C++ fills `newShape` through a double loop; writing
`index = 0, 1, ...` against the loop variables gives, for the right rotation,
`newShape[r*b+c] = shape[(b-1-c)*b + r]`, and for the left rotation
`newShape[r*b+c] = shape[c*b + (b-1-r)]`; the embedding builds the new shape
by that reindexing.  The state wraps exactly as the source does. -/
def Piece.rotate (p : Piece) (rotation : Rotation) : Piece :=
  if p.kind = .kPieceO then p
  else
    let b := p.bBoxSide
    let p' :=
      match rotation with
      | .kRight =>
          { p with
            state := p.state + 1
            shape := (List.range (b * b)).map fun i =>
              p.shape.getD ((b - 1 - i % b) * b + i / b) TileColor.kEmpty }
      | .kLeft =>
          { p with
            state := p.state - 1
            shape := (List.range (b * b)).map fun i =>
              p.shape.getD ((i % b) * b + (b - 1 - i / b)) TileColor.kEmpty }
    if p'.state = -1 then { p' with state := kNumStates - 1 }
    else if p'.state = kNumStates then { p' with state := 0 }
    else p'

/-- `Piece::kicks`: the kick row selected by the current (pre-rotation)
state. -/
def Piece.kicks (p : Piece) (rotation : Rotation) : List (Int × Int) :=
  match rotation with
  | .kRight => p.kicksRight.getD p.state.toNat []
  | .kLeft => p.kicksLeft.getD p.state.toNat []

/-- Pointwise update of a flat tile store (the effect of a single
`tiles_[i] = color` vector write). -/
def fnUpdate (f : Int → TileColor) (i : Int) (v : TileColor) : Int → TileColor :=
  fun j => if j = i then v else f j

/-- `Board::kRowsAbove_ = 2`: hidden rows above the visible skyline. -/
def kRowsAbove : Int := 2

/-- The `Board` class.  `tiles` and `tilesAfterClear` embed the flat
`std::vector<TileColor>` stores as functions on the flat index
`(row + kRowsAbove_) * nCols + col`; the constructor fills every cell with
`kEmpty`, so the function embedding loses nothing. -/
structure Board where
  nRows : Nat
  nCols : Nat
  tiles : Int → TileColor
  piece : Piece
  row : Int
  col : Int
  ghostRow : Int
  tilesAfterClear : Int → TileColor
  linesToClear : List Int

/-- `Board::Board(nRows, nCols)`: empty grid, `kNone` piece, zero-initialised
anchor and ghost row. -/
def Board.mkBoard (nRows nCols : Nat) : Board :=
  { nRows := nRows
    nCols := nCols
    tiles := fun _ => TileColor.kEmpty
    piece := mkPiece .kNone
    row := 0
    col := 0
    ghostRow := 0
    tilesAfterClear := fun _ => TileColor.kEmpty
    linesToClear := [] }

/-- `Board::clear`: refill `tiles_` with `kEmpty`. -/
def Board.clear (b : Board) : Board :=
  { b with tiles := fun _ => TileColor.kEmpty }

/-- `Board::tileAt`. -/
def Board.tileAt (b : Board) (row col : Int) : TileColor :=
  b.tiles ((row + kRowsAbove) * b.nCols + col)

/-- `Board::setTile`. -/
def Board.setTile (b : Board) (row col : Int) (color : TileColor) : Board :=
  { b with tiles := fnUpdate b.tiles ((row + kRowsAbove) * b.nCols + col) color }

/-- `Board::isTileFilled`: out-of-bounds positions count as filled. -/
def Board.isTileFilled (b : Board) (row col : Int) : Bool :=
  if col < 0 ∨ col ≥ (b.nCols : Int) ∨ row < -kRowsAbove ∨ row ≥ (b.nRows : Int) then
    true
  else
    b.tileAt row col ≠ TileColor.kEmpty

/-- `Board::isPositionPossible`: a `kNone` piece is never possible; otherwise
every occupied cell of the bounding box must land on a non-filled tile.  The
C++ double loop over `(pieceRow, pieceCol)` with a running `index` is the
flat traversal `index = pieceRow * bBoxSide + pieceCol`. -/
def Board.isPositionPossible (b : Board) (row col : Int) (piece : Piece) : Bool :=
  if piece.kind = .kNone then false
  else
    (List.range (piece.bBoxSide * piece.bBoxSide)).all fun i =>
      piece.shape.getD i TileColor.kEmpty = TileColor.kEmpty ∨
        ¬ b.isTileFilled (row + (i / piece.bBoxSide : Nat)) (col + (i % piece.bBoxSide : Nat))

/-- The spawn slide of `Board::spawnPiece`: move down while the next row is
possible, at most `maxMoveDown` times. -/
def Board.spawnSlide (b : Board) : Nat → Board
  | 0 => b
  | n + 1 =>
      if b.isPositionPossible (b.row + 1) b.col b.piece then
        Board.spawnSlide { b with row := b.row + 1 } n
      else b

/-- Fuel for the `updateGhostRow` while loop; any value at least
`nRows - row` suffices, and with an occupied shape cell every possible row is
below `nRows`, so this bound is enough (proved in `ghostAux_spec`). -/
def ghostFuel (b : Board) : Nat :=
  b.nRows + 2 + b.piece.bBoxSide

/-- The while loop of `Board::updateGhostRow`: climb down while the position
one row below stays possible. -/
def Board.ghostAux (b : Board) : Nat → Int → Int
  | 0, r => r
  | n + 1, r =>
      if b.isPositionPossible (r + 1) b.col b.piece then b.ghostAux n (r + 1)
      else r

/-- `Board::updateGhostRow`. -/
def Board.updateGhostRow (b : Board) : Board :=
  { b with ghostRow := b.ghostAux (ghostFuel b) b.row }

/-- `Board::spawnPiece`: place the new piece at row −2, centered (C++ `int`
division truncates, hence `Int.tdiv`); fail if that position already
collides; otherwise slide down (one extra row for the I kind, two for all
others) and recompute the ghost row. -/
def Board.spawnPiece (b : Board) (kind : PieceKind) : Bool × Board :=
  let piece := mkPiece kind
  let b := { b with
    piece := piece
    row := -2
    col := Int.tdiv ((b.nCols : Int) - (piece.bBoxSide : Int)) 2 }
  if ¬ b.isPositionPossible b.row b.col b.piece then (false, b)
  else
    let maxMoveDown := if kind = .kPieceI then 1 else 2
    (true, (b.spawnSlide maxMoveDown).updateGhostRow)

/-- `Board::moveHorizontal`. -/
def Board.moveHorizontal (b : Board) (dCol : Int) : Bool × Board :=
  if b.isPositionPossible b.row (b.col + dCol) b.piece then
    (true, Board.updateGhostRow { b with col := b.col + dCol })
  else (false, b)

/-- `Board::moveVertical` (note: the source does not recompute the ghost row
here, despite its comment). -/
def Board.moveVertical (b : Board) (dRow : Int) : Bool × Board :=
  if b.isPositionPossible (b.row + dRow) b.col b.piece then
    (true, { b with row := b.row + dRow })
  else (false, b)

/-- The kick scan of `Board::rotate`: apply the first kick offset whose
translated position admits the rotated test piece. -/
def Board.tryKicks (b : Board) (testPiece : Piece) : List (Int × Int) → Bool × Board
  | [] => (false, b)
  | (dRow, dCol) :: rest =>
      if b.isPositionPossible (b.row + dRow) (b.col + dCol) testPiece then
        (true, Board.updateGhostRow
          { b with piece := testPiece, row := b.row + dRow, col := b.col + dCol })
      else b.tryKicks testPiece rest

/-- `Board::rotate`: O and none kinds refuse immediately; otherwise rotate a
copy and scan the kick table of the current (pre-rotation) state. -/
def Board.rotate (b : Board) (rotation : Rotation) : Bool × Board :=
  if b.piece.kind = .kPieceO ∨ b.piece.kind = .kNone then (false, b)
  else
    let testPiece := b.piece.rotate rotation
    b.tryKicks testPiece (b.piece.kicks rotation)

/-- `Board::hardDrop`: jump to the stored ghost row, returning the rows
passed. -/
def Board.hardDrop (b : Board) : Int × Board :=
  (b.ghostRow - b.row, { b with row := b.ghostRow })

/-- `Board::isOnGround`. -/
def Board.isOnGround (b : Board) : Bool :=
  ¬ b.isPositionPossible (b.row + 1) b.col b.piece

/-- Full-row test of `Board::findLinesToClear` (inner column loop with early
exit). -/
def Board.fullRow (b : Board) (row : Int) : Bool :=
  (List.range b.nCols).all fun col => b.isTileFilled row (col : Int)

/-- Inner copy loop of `Board::findLinesToClear`: copy `n` tiles from
`tiles` at descending flat indices into `after` shifted by `shift`. -/
def copyRowLoop (tiles : Int → TileColor) (shift : Int) :
    Nat → (Int → TileColor) → Int → (Int → TileColor) × Int
  | 0, after, index => (after, index)
  | n + 1, after, index =>
      copyRowLoop tiles shift n (fnUpdate after (index + shift) (tiles index)) (index - 1)

/-- Row sweep of `Board::findLinesToClear`, from `row = nRows-1` down to
`-kRowsAbove_`, carrying the flat index, the number of lines found, the list
of full rows and the compacted grid. -/
def Board.flcAux (b : Board) :
    Nat → Int → Int → Nat → List Int → (Int → TileColor) →
    List Int × (Int → TileColor) × Nat
  | 0, _row, _index, cleared, lines, after => (lines, after, cleared)
  | n + 1, row, index, cleared, lines, after =>
      if b.fullRow row then
        b.flcAux n (row - 1) (index - b.nCols) (cleared + 1) (lines ++ [row]) after
      else if 0 < cleared then
        let res := copyRowLoop b.tiles ((cleared : Int) * b.nCols) b.nCols after index
        b.flcAux n (row - 1) res.2 cleared lines res.1
      else
        b.flcAux n (row - 1) (index - b.nCols) cleared lines after

/-- `Board::findLinesToClear`: sweep all `nRows + 2` rows bottom-up, then
blank the vacated top `linesCleared` rows of the compacted grid
(`std::fill` over the first `linesCleared * nCols` entries). -/
def Board.findLinesToClear (b : Board) : Board :=
  let total := b.nRows + 2
  let res := b.flcAux total ((b.nRows : Int) - 1) ((total : Int) * b.nCols - 1) 0 [] b.tiles
  let after := fun j =>
    if 0 ≤ j ∧ j < (res.2.2 : Int) * b.nCols then TileColor.kEmpty else res.2.1 j
  { b with linesToClear := res.1, tilesAfterClear := after }

/-- `Board::frozePiece`: copy every occupied piece cell into the grid at the
anchor (the double loop is the flat traversal of the bounding box), report
whether any copied cell landed at or below the skyline, find the lines to
clear, and drop the active piece. -/
def Board.frozePiece (b : Board) : Bool × Board :=
  let bb := b.piece.bBoxSide
  let shape := b.piece.shape
  let res := (List.range (bb * bb)).foldl
    (fun (acc : Bool × Board) i =>
      if shape.getD i TileColor.kEmpty ≠ TileColor.kEmpty then
        let r := b.row + (i / bb : Nat)
        let c := b.col + (i % bb : Nat)
        (acc.1 ∨ 0 ≤ r, acc.2.setTile r c (shape.getD i TileColor.kEmpty))
      else acc)
    (false, b)
  let b' := res.2.findLinesToClear
  (res.1, { b' with piece := mkPiece .kNone })

/-- `Board::clearLines`: commit the precomputed compacted grid if any lines
are pending. -/
def Board.clearLines (b : Board) : Board :=
  if b.linesToClear.isEmpty then b
  else { b with linesToClear := [], tiles := b.tilesAfterClear }

/-! ## Board operations as a step relation

The public `Board` operations, used for the collision-validity invariant
(claim C1): states reachable from a fresh board by these operations. -/

/-- One public `Board` operation. -/
inductive BOp where
  | spawn (kind : PieceKind)
  | moveH (dCol : Int)
  | moveV (dRow : Int)
  | rot (rotation : Rotation)
  | hardDrop
  | froze
  | clear

/-- The state produced by one public operation (dropping the status
result). -/
def BOp.apply : BOp → Board → Board
  | .spawn k, b => (b.spawnPiece k).2
  | .moveH d, b => (b.moveHorizontal d).2
  | .moveV d, b => (b.moveVertical d).2
  | .rot r, b => (b.rotate r).2
  | .hardDrop, b => b.hardDrop.2
  | .froze, b => b.frozePiece.2
  | .clear, b => b.clearLines

/-- Side condition of the amended invariant claim: `spawnPiece` must succeed
(a failed spawn deliberately leaves the fresh piece at its colliding start
anchor), and `clearLines` is exercised only with no active piece, which is
the only way the controller ever calls it (lines are pending only between
`frozePiece`, which clears the piece, and the pause expiry that spawns the
next one). -/
def BOp.allowed : BOp → Board → Prop
  | .spawn k, b => (b.spawnPiece k).1 = true
  | .clear, b => b.piece.kind = .kNone
  | _, _ => True

/-- Collision-validity invariant: whenever an active piece exists, both its
anchor position and its stored ghost position are collision-valid. -/
def BoardInv (b : Board) : Prop :=
  b.piece.kind ≠ .kNone →
    b.isPositionPossible b.row b.col b.piece = true ∧
    b.isPositionPossible b.ghostRow b.col b.piece = true

instance (b : Board) : Decidable (BoardInv b) := by
  unfold BoardInv; infer_instance

instance (op : BOp) (b : Board) : Decidable (op.allowed b) := by
  cases op <;> (unfold BOp.allowed; infer_instance)

/-! ### Helper lemmas about the ghost-row climb -/

/-- Climbing with `ghostAux` from a collision-valid row ends on a
collision-valid row. -/
theorem ghostAux_valid (b : Board) :
    ∀ (n : Nat) (r : Int), b.isPositionPossible r b.col b.piece = true →
      b.isPositionPossible (b.ghostAux n r) b.col b.piece = true := by
  intro n
  induction n with
  | zero => intro r h; exact h
  | succ n ih =>
      intro r h
      rw [Board.ghostAux]
      split
      · exact ih (r + 1) (by assumption)
      · exact h

/-- `spawnSlide` keeps the piece position collision-valid. -/
theorem spawnSlide_valid :
    ∀ (n : Nat) (b : Board), b.isPositionPossible b.row b.col b.piece = true →
      (b.spawnSlide n).isPositionPossible (b.spawnSlide n).row (b.spawnSlide n).col
        (b.spawnSlide n).piece = true := by
  intro n
  induction n with
  | zero => intro b h; exact h
  | succ n ih =>
      intro b h
      rw [Board.spawnSlide]
      split
      · exact ih { b with row := b.row + 1 } (by assumption)
      · exact h

/-- `updateGhostRow` establishes the full invariant from a collision-valid
anchor. -/
theorem updateGhostRow_inv (b : Board)
    (h : b.isPositionPossible b.row b.col b.piece = true) :
    BoardInv b.updateGhostRow := by
  intro _
  exact ⟨h, ghostAux_valid b (ghostFuel b) b.row h⟩

/-- The kick scan preserves the invariant: it either changes nothing or
applies a kick whose target position was just checked. -/
theorem tryKicks_inv (tp : Piece) :
    ∀ (ks : List (Int × Int)) (b : Board), BoardInv b →
      BoardInv (b.tryKicks tp ks).2 := by
  intro ks
  induction ks with
  | nil => intro b hb; exact hb
  | cons k rest ih =>
      intro b hb
      rw [Board.tryKicks]
      split
      · exact updateGhostRow_inv _ (by assumption)
      · exact ih b hb

/-- The `Piece` constructor stores the requested kind. -/
theorem mkPiece_kind (k : PieceKind) : (mkPiece k).kind = k := by
  cases k <;> rfl

/-- C1 (amended): every public `Board` operation preserves the
collision-validity invariant — movement and rotation only commit positions
they have just checked, `hardDrop` jumps to the (valid) stored ghost row,
`frozePiece` removes the active piece — with the two deliberate exceptions
recorded in `BOp.allowed`: a `spawnPiece` that fails leaves the fresh piece
at its colliding start anchor (second conjunct), and `clearLines` is only
guaranteed when no piece is active, the controller's sole use of it. -/
theorem claim_C1 :
    (∀ (b : Board) (op : BOp), BoardInv b → op.allowed b → BoardInv (op.apply b)) ∧
    (∀ (b : Board) (k : PieceKind), (b.spawnPiece k).1 = false →
      (b.spawnPiece k).2.piece.kind = k ∧
      (b.spawnPiece k).2.isPositionPossible (b.spawnPiece k).2.row
        (b.spawnPiece k).2.col (b.spawnPiece k).2.piece = false) := by
  constructor
  · intro b op hb hok
    cases op with
    | spawn k =>
        simp only [BOp.allowed] at hok
        simp only [BOp.apply, Board.spawnPiece] at hok ⊢
        split at hok
        · exact absurd hok (by simp)
        · rename_i hposs
          rw [if_neg hposs]
          rw [Bool.not_eq_true, Bool.not_eq_false] at hposs
          exact updateGhostRow_inv _ (spawnSlide_valid _ _ hposs)
    | moveH d =>
        simp only [BOp.apply, Board.moveHorizontal]
        split
        · exact updateGhostRow_inv _ (by assumption)
        · exact hb
    | moveV d =>
        simp only [BOp.apply, Board.moveVertical]
        split
        · rename_i hposs
          intro hk
          refine ⟨hposs, ?_⟩
          exact (hb hk).2
        · exact hb
    | rot r =>
        simp only [BOp.apply, Board.rotate]
        split
        · exact hb
        · exact tryKicks_inv _ _ b hb
    | hardDrop =>
        simp only [BOp.apply, Board.hardDrop]
        intro hk
        exact ⟨(hb hk).2, (hb hk).2⟩
    | froze =>
        simp only [BOp.apply, Board.frozePiece]
        intro hk
        exact absurd rfl hk
    | clear =>
        simp only [BOp.allowed] at hok
        simp only [BOp.apply, Board.clearLines]
        split
        · exact hb
        · intro hk
          exact absurd hok hk
  · intro b k hfail
    simp only [Board.spawnPiece] at hfail ⊢
    split at hfail
    · rename_i hposs
      rw [if_pos hposs]
      rw [Bool.not_eq_true] at hposs
      exact ⟨mkPiece_kind k, hposs⟩
    · exact absurd hfail (by simp)

/-- Witness for C1: a fresh 1×3 board satisfies the invariant, spawning an O
piece on it is allowed (it succeeds), and the invariant holds afterwards. -/
theorem claim_C1_witness :
    BoardInv (Board.mkBoard 1 3) ∧
    BOp.allowed (.spawn .kPieceO) (Board.mkBoard 1 3) ∧
    BoardInv (BOp.apply (.spawn .kPieceO) (Board.mkBoard 1 3)) :=
  ⟨by decide, by decide, claim_C1.1 _ _ (by decide) (by decide)⟩

/-- A state reached from a fresh 1×3 board by public operations only:
spawn an O piece (it settles at row −1, filling the hidden row −1 and row 0
at columns 0–1 when frozen), freeze it, then spawn a second O piece, which
collides at the start anchor. -/
def c1Board : Board :=
  BOp.apply (.spawn .kPieceO)
    (BOp.apply .froze
      (BOp.apply (.spawn .kPieceO) (Board.mkBoard 1 3)))

/-- Counterexample to C1 as stated: after the failed second spawn the board
holds an active piece (kind O, not the none sentinel) whose anchor position
is not collision-valid. -/
theorem claim_C1_counterexample :
    c1Board.piece.kind ≠ .kNone ∧
    c1Board.isPositionPossible c1Board.row c1Board.col c1Board.piece = false := by
  decide

/-- C9: for every kind other than O and the none sentinel, four successive
right rotations return the piece — shape and rotation state — to its exact
original form. -/
theorem claim_C9 (k : PieceKind) (h1 : k ≠ .kPieceO) (h2 : k ≠ .kNone) :
    ((((mkPiece k).rotate .kRight).rotate .kRight).rotate .kRight).rotate .kRight
      = mkPiece k := by
  cases k
  · exact absurd rfl h2
  all_goals first
    | exact absurd rfl h1
    | decide

/-- Witness for C9 at the T kind. -/
theorem claim_C9_witness :
    (PieceKind.kPieceT ≠ .kPieceO ∧ PieceKind.kPieceT ≠ .kNone) ∧
    ((((mkPiece .kPieceT).rotate .kRight).rotate .kRight).rotate .kRight).rotate .kRight
      = mkPiece .kPieceT :=
  ⟨⟨by decide, by decide⟩, claim_C9 .kPieceT (by decide) (by decide)⟩

/-! ### Characterisation of the ghost row (claim C7) -/

/-- Unfolding of `isPositionPossible` on success. -/
theorem isPositionPossible_eq_true_iff (b : Board) (row col : Int) (piece : Piece) :
    b.isPositionPossible row col piece = true ↔
      piece.kind ≠ .kNone ∧
      ∀ i, i < piece.bBoxSide * piece.bBoxSide →
        piece.shape.getD i TileColor.kEmpty ≠ TileColor.kEmpty →
        b.isTileFilled (row + ((i / piece.bBoxSide : Nat) : Int))
          (col + ((i % piece.bBoxSide : Nat) : Int)) = false := by
  rw [Board.isPositionPossible]
  split
  · rename_i h
    simp [h]
  · rename_i h
    simp only [List.all_eq_true, List.mem_range, decide_eq_true_eq]
    constructor
    · intro hall
      refine ⟨h, fun i hi hocc => ?_⟩
      rcases hall i hi with hc | hc
      · exact absurd hc hocc
      · simpa using hc
    · intro hall i hi
      by_cases hocc : piece.shape.getD i TileColor.kEmpty = TileColor.kEmpty
      · exact Or.inl hocc
      · exact Or.inr (by rw [hall.2 i hi hocc]; decide)

/-- Unfolding of a non-filled tile: in bounds and empty. -/
theorem isTileFilled_eq_false_iff (b : Board) (row col : Int) :
    b.isTileFilled row col = false ↔
      0 ≤ col ∧ col < (b.nCols : Int) ∧ -kRowsAbove ≤ row ∧ row < (b.nRows : Int) ∧
      b.tileAt row col = TileColor.kEmpty := by
  rw [Board.isTileFilled]
  split
  · rename_i h
    constructor
    · intro hF; exact absurd hF (by simp)
    · intro hB
      rcases h with h | h | h | h <;> omega
  · rename_i h
    push_neg at h
    simp only [decide_eq_false_iff_not, not_not]
    constructor
    · intro he
      exact ⟨h.1, h.2.1, by omega, by omega, he⟩
    · intro hB
      exact hB.2.2.2.2

/-- Any collision-valid position of a piece with at least one occupied shape
cell lies strictly between `-2 - bBoxSide` and `nRows`. -/
theorem possible_row_bounds (b : Board) (piece : Piece)
    (hocc : (List.range (piece.bBoxSide * piece.bBoxSide)).any
      (fun i => piece.shape.getD i TileColor.kEmpty ≠ TileColor.kEmpty) = true) :
    ∀ r c : Int, b.isPositionPossible r c piece = true →
      -2 - (piece.bBoxSide : Int) < r ∧ r < (b.nRows : Int) := by
  intro r c hp
  simp only [List.any_eq_true, List.mem_range, decide_eq_true_eq] at hocc
  obtain ⟨i, hi, hio⟩ := hocc
  have h2 := ((isPositionPossible_eq_true_iff b r c piece).1 hp).2 i hi hio
  rw [isTileFilled_eq_false_iff] at h2
  have hbb : 0 < piece.bBoxSide := by
    rcases Nat.eq_zero_or_pos piece.bBoxSide with h0 | h0
    · rw [h0] at hi; omega
    · exact h0
  have hdiv : i / piece.bBoxSide < piece.bBoxSide := Nat.div_lt_of_lt_mul hi
  have hrow1 : -kRowsAbove ≤ r + ((i / piece.bBoxSide : Nat) : Int) := h2.2.2.1
  have hrow2 : r + ((i / piece.bBoxSide : Nat) : Int) < (b.nRows : Int) := h2.2.2.2.1
  rw [kRowsAbove] at hrow1
  have hd0 : ((i / piece.bBoxSide : Nat) : Int) < (piece.bBoxSide : Int) := by
    exact_mod_cast hdiv
  have hd1 : (0 : Int) ≤ ((i / piece.bBoxSide : Nat) : Int) := Int.natCast_nonneg _
  omega

/-- The `updateGhostRow` while loop, run with enough fuel from a
collision-valid row: the result is at or below the start, every row in
between is collision-valid, and one further row down is not. -/
theorem ghostAux_spec (b : Board) (M : Int)
    (hM : ∀ r : Int, b.isPositionPossible r b.col b.piece = true → r < M) :
    ∀ (n : Nat) (r : Int), (M - 1 - r).toNat ≤ n →
      b.isPositionPossible r b.col b.piece = true →
      r ≤ b.ghostAux n r ∧
      (∀ x, r ≤ x → x ≤ b.ghostAux n r →
        b.isPositionPossible x b.col b.piece = true) ∧
      b.isPositionPossible (b.ghostAux n r + 1) b.col b.piece = false := by
  intro n
  induction n with
  | zero =>
      intro r hfuel hr
      have hrM := hM r hr
      refine ⟨le_refl r, fun x hx1 hx2 => ?_, ?_⟩
      · have : x = r := le_antisymm hx2 hx1
        rw [this]; exact hr
      · cases hnext : b.isPositionPossible (r + 1) b.col b.piece with
        | false => exact hnext
        | true => have := hM _ hnext; omega
  | succ n ih =>
      intro r hfuel hr
      rw [Board.ghostAux]
      split
      · rename_i hnext
        have hnextM := hM _ hnext
        have hspec := ih (r + 1) (by omega) hnext
        refine ⟨by omega, fun x hx1 hx2 => ?_, hspec.2.2⟩
        rcases eq_or_lt_of_le hx1 with hx | hx
        · rw [← hx]; exact hr
        · exact hspec.2.1 x (by omega) hx2
      · rename_i hnext
        rw [Bool.not_eq_true] at hnext
        refine ⟨le_refl r, fun x hx1 hx2 => ?_, hnext⟩
        have : x = r := le_antisymm hx2 hx1
        rw [this]; exact hr

/-- C7 (amended): whenever `updateGhostRow` runs from a collision-valid
anchor of a piece with at least one occupied cell — which is exactly how the
source uses it, after every successful spawn, horizontal move and rotation —
the stored ghost row is the deepest row reachable from the anchor by unit
downward translation: it is at or below the anchor, every position from the
anchor down to it is collision-valid, the position one row further is not,
and every row reachable from the anchor through collision-valid positions
lies at or above it.  (`moveVertical` does not recompute the ghost row, so
after it the stored value can be stale — see `claim_C7_counterexample`.) -/
theorem claim_C7 (b : Board)
    (hocc : (List.range (b.piece.bBoxSide * b.piece.bBoxSide)).any
      (fun i => b.piece.shape.getD i TileColor.kEmpty ≠ TileColor.kEmpty) = true)
    (hvalid : b.isPositionPossible b.row b.col b.piece = true) :
    b.row ≤ b.updateGhostRow.ghostRow ∧
    (∀ x, b.row ≤ x → x ≤ b.updateGhostRow.ghostRow →
      b.isPositionPossible x b.col b.piece = true) ∧
    b.isPositionPossible (b.updateGhostRow.ghostRow + 1) b.col b.piece = false ∧
    (∀ x, b.row ≤ x →
      (∀ y, b.row ≤ y → y ≤ x → b.isPositionPossible y b.col b.piece = true) →
      x ≤ b.updateGhostRow.ghostRow) := by
  have hM : ∀ r : Int, b.isPositionPossible r b.col b.piece = true → r < (b.nRows : Int) :=
    fun r hp => (possible_row_bounds b b.piece hocc r b.col hp).2
  have hlow := (possible_row_bounds b b.piece hocc b.row b.col hvalid).1
  have hfuel : ((b.nRows : Int) - 1 - b.row).toNat ≤ ghostFuel b := by
    rw [ghostFuel]; omega
  have hspec := ghostAux_spec b (b.nRows : Int) hM (ghostFuel b) b.row hfuel hvalid
  have hg : b.updateGhostRow.ghostRow = b.ghostAux (ghostFuel b) b.row := rfl
  rw [hg]
  refine ⟨hspec.1, hspec.2.1, hspec.2.2, fun x hx hchain => ?_⟩
  by_contra hgt
  push_neg at hgt
  have h1 : b.isPositionPossible (b.ghostAux (ghostFuel b) b.row + 1) b.col b.piece = true :=
    hchain _ (by have := hspec.1; omega) (by omega)
  rw [hspec.2.2] at h1
  exact absurd h1 (by simp)

/-- Witness for C7: the freshly spawned O piece on the 1×3 board. -/
theorem claim_C7_witness :
    ((List.range (((Board.mkBoard 1 3).spawnPiece .kPieceO).2.piece.bBoxSide *
        ((Board.mkBoard 1 3).spawnPiece .kPieceO).2.piece.bBoxSide)).any
      (fun i => ((Board.mkBoard 1 3).spawnPiece .kPieceO).2.piece.shape.getD i
        TileColor.kEmpty ≠ TileColor.kEmpty) = true) ∧
    (((Board.mkBoard 1 3).spawnPiece .kPieceO).2.isPositionPossible
      ((Board.mkBoard 1 3).spawnPiece .kPieceO).2.row
      ((Board.mkBoard 1 3).spawnPiece .kPieceO).2.col
      ((Board.mkBoard 1 3).spawnPiece .kPieceO).2.piece = true) ∧
    ((Board.mkBoard 1 3).spawnPiece .kPieceO).2.row ≤
      ((Board.mkBoard 1 3).spawnPiece .kPieceO).2.updateGhostRow.ghostRow :=
  ⟨by decide, by decide, (claim_C7 _ (by decide) (by decide)).1⟩

/-- A state reached from a fresh 3×4 board by public operations: spawn an I
piece (it settles with its cells on row 0), freeze it mid-air (row 0 becomes
full but `clearLines` is never invoked), spawn an O piece (it is stuck at the
hidden rows above the full row 0, ghost row −2), then `moveVertical 3` jumps
it through the full row into the cavity below. -/
def c7Board : Board :=
  BOp.apply (.moveV 3)
    (BOp.apply (.spawn .kPieceO)
      (BOp.apply .froze
        (BOp.apply (.spawn .kPieceI) (Board.mkBoard 3 4))))

/-- Counterexample to C7 as stated: a reachable board state with an active
piece whose stored ghost row lies strictly above the anchor row
(`moveVertical` never recomputes the ghost row), refuting
`ghostRow ≥ anchor row`. -/
theorem claim_C7_counterexample :
    c7Board.piece.kind ≠ .kNone ∧ c7Board.ghostRow < c7Board.row := by
  decide

/-! ### Line detection and compaction (claim C5) -/

/-- Characterisation of the inner copy loop: it copies the block of `n`
flat positions ending at `index` upward by `shift`, leaves everything else
alone, and retreats the index by `n`. -/
theorem copyRowLoop_spec (tiles : Int → TileColor) (shift : Int) :
    ∀ (n : Nat) (after : Int → TileColor) (index : Int),
      (copyRowLoop tiles shift n after index).2 = index - n ∧
      ∀ j, (copyRowLoop tiles shift n after index).1 j =
        if index - n < j - shift ∧ j - shift ≤ index then tiles (j - shift)
        else after j := by
  intro n
  induction n with
  | zero =>
      intro after index
      refine ⟨by simp [copyRowLoop], fun j => ?_⟩
      rw [copyRowLoop]
      rw [if_neg]
      intro h
      omega
  | succ n ih =>
      intro after index
      rw [copyRowLoop]
      refine ⟨by rw [(ih _ _).1]; push_cast; ring, fun j => ?_⟩
      rw [(ih _ _).2 j]
      unfold fnUpdate
      split_ifs <;> first | rfl | (congr 1; omega) | omega

/-- One sweep step on a full row. -/
theorem flcAux_step_full (b : Board) (n : Nat) (row index : Int) (cleared : Nat)
    (lines : List Int) (after : Int → TileColor) (h : b.fullRow row = true) :
    b.flcAux (n + 1) row index cleared lines after =
      b.flcAux n (row - 1) (index - b.nCols) (cleared + 1) (lines ++ [row]) after := by
  rw [Board.flcAux, if_pos h]

/-- One sweep step on a non-full row while no line has been found yet. -/
theorem flcAux_step_skip (b : Board) (n : Nat) (row index : Int)
    (lines : List Int) (after : Int → TileColor) (h : b.fullRow row = false) :
    b.flcAux (n + 1) row index 0 lines after =
      b.flcAux n (row - 1) (index - b.nCols) 0 lines after := by
  rw [Board.flcAux, if_neg (by simp [h]), if_neg (by simp)]

/-- One sweep step on a non-full row after at least one full row was found:
the row is copied upward by `cleared` rows. -/
theorem flcAux_step_copy (b : Board) (n : Nat) (row index : Int) (cleared : Nat)
    (lines : List Int) (after : Int → TileColor) (h : b.fullRow row = false)
    (hcl : 0 < cleared) :
    b.flcAux (n + 1) row index cleared lines after =
      b.flcAux n (row - 1)
        (copyRowLoop b.tiles ((cleared : Int) * b.nCols) b.nCols after index).2
        cleared lines
        (copyRowLoop b.tiles ((cleared : Int) * b.nCols) b.nCols after index).1 := by
  rw [Board.flcAux, if_neg (by simp [h]), if_pos hcl]

/-- A sweep segment over `m` non-full rows with no line found yet changes
nothing but the cursor. -/
theorem flc_skip (b : Board) :
    ∀ (m k : Nat) (row index : Int) (lines : List Int) (after : Int → TileColor),
      (∀ s : Int, row - m < s → s ≤ row → b.fullRow s = false) →
      b.flcAux (m + k) row index 0 lines after =
        b.flcAux k (row - m) (index - m * b.nCols) 0 lines after := by
  intro m
  induction m with
  | zero =>
      intro k row index lines after _
      norm_num
  | succ m ih =>
      intro k row index lines after h
      rw [show m + 1 + k = (m + k) + 1 from by omega]
      rw [flcAux_step_skip b (m + k) row index lines after
        (h row (by push_cast; omega) (le_refl row))]
      rw [ih k (row - 1) (index - b.nCols) lines after
        (fun s hs1 hs2 => h s (by push_cast at hs1 ⊢; omega) (by omega))]
      congr 1 <;> push_cast <;> ring

/-- A sweep segment over `m` non-full rows with `cl > 0` lines already
found: each of the `m` rows is copied `cl` rows upward in the compacted
grid; nothing else changes. -/
theorem flc_copy (b : Board) (cl : Nat) (hcl : 0 < cl) :
    ∀ (m k : Nat) (row index : Int) (lines : List Int) (after : Int → TileColor),
      (∀ s : Int, row - m < s → s ≤ row → b.fullRow s = false) →
      b.flcAux (m + k) row index cl lines after =
        b.flcAux k (row - m) (index - m * b.nCols) cl lines
          (fun j =>
            if index - m * b.nCols < j - (cl : Int) * b.nCols ∧
                j - (cl : Int) * b.nCols ≤ index
            then b.tiles (j - (cl : Int) * b.nCols) else after j) := by
  intro m
  induction m with
  | zero =>
      intro k row index lines after _
      have hfn : (fun j =>
          if index - (0 : Nat) * b.nCols < j - (cl : Int) * b.nCols ∧
              j - (cl : Int) * b.nCols ≤ index
          then b.tiles (j - (cl : Int) * b.nCols) else after j) = after := by
        funext j
        rw [if_neg]
        push_cast
        omega
      rw [hfn]
      norm_num
  | succ m ih =>
      intro k row index lines after h
      rw [show m + 1 + k = (m + k) + 1 from by omega]
      rw [flcAux_step_copy b (m + k) row index cl lines after
        (h row (by push_cast; omega) (le_refl row)) hcl]
      rw [(copyRowLoop_spec b.tiles ((cl : Int) * b.nCols) b.nCols after index).1]
      have hfn1 : (copyRowLoop b.tiles ((cl : Int) * b.nCols) b.nCols after index).1 =
          (fun j =>
            if index - (b.nCols : Int) < j - (cl : Int) * b.nCols ∧
                j - (cl : Int) * b.nCols ≤ index
            then b.tiles (j - (cl : Int) * b.nCols) else after j) :=
        funext fun j => (copyRowLoop_spec b.tiles ((cl : Int) * b.nCols) b.nCols after index).2 j
      rw [hfn1]
      rw [ih k (row - 1) (index - b.nCols) lines _
        (fun s hs1 hs2 => h s (by push_cast at hs1 ⊢; omega) (by omega))]
      have hfn2 : (fun j =>
          if index - (b.nCols : Int) - m * b.nCols < j - (cl : Int) * b.nCols ∧
              j - (cl : Int) * b.nCols ≤ index - (b.nCols : Int)
          then b.tiles (j - (cl : Int) * b.nCols)
          else if index - (b.nCols : Int) < j - (cl : Int) * b.nCols ∧
              j - (cl : Int) * b.nCols ≤ index
            then b.tiles (j - (cl : Int) * b.nCols) else after j) =
          (fun j =>
            if index - ((m + 1 : Nat) : Int) * b.nCols < j - (cl : Int) * b.nCols ∧
                j - (cl : Int) * b.nCols ≤ index
            then b.tiles (j - (cl : Int) * b.nCols) else after j) := by
        funext j
        have harith : ((m + 1 : Nat) : Int) * b.nCols = (m : Int) * b.nCols + b.nCols := by
          push_cast; ring
        have hmN : 0 ≤ (m : Int) * b.nCols :=
          mul_nonneg (Int.natCast_nonneg m) (Int.natCast_nonneg b.nCols)
        split_ifs <;> first | rfl | omega
      rw [hfn2]
      congr 1 <;> push_cast <;> ring

/-- A flat position `u * N + cc` (column `cc` of block `u`) reaches block
`v` exactly when `v ≤ u`. -/
theorem block_ge_iff (N u v cc : Int) (hN : 0 < N) (h0 : 0 ≤ cc) (hcN : cc < N) :
    v * N ≤ u * N + cc ↔ v ≤ u := by
  constructor
  · intro h
    by_contra hlt
    push_neg at hlt
    have h2 : (u + 1) * N ≤ v * N :=
      mul_le_mul_of_nonneg_right (by omega) (by omega)
    have he : (u + 1) * N = u * N + N := by ring
    omega
  · intro h
    have h2 : v * N ≤ u * N := mul_le_mul_of_nonneg_right h (by omega)
    omega

/-- A flat position `u * N + cc` stays strictly below block `v` exactly when
`u < v`. -/
theorem block_le_iff (N u v cc : Int) (hN : 0 < N) (h0 : 0 ≤ cc) (hcN : cc < N) :
    u * N + cc ≤ v * N - 1 ↔ u < v := by
  constructor
  · intro h
    by_contra hlt
    push_neg at hlt
    have h2 : v * N ≤ u * N := mul_le_mul_of_nonneg_right hlt (by omega)
    omega
  · intro h
    have h2 : (u + 1) * N ≤ v * N :=
      mul_le_mul_of_nonneg_right (by omega) (by omega)
    have he : (u + 1) * N = u * N + N := by ring
    omega

/-- C5 (amended): in a board where exactly the two rows `R1 < R2` are fully
occupied, `findLinesToClear` reports exactly those rows (bottom-up, so the
list is `[R2, R1]`), and after `clearLines` the top two rows of the grid are
empty, every row strictly above `R1` shifts down by 2, every row strictly
between `R1` and `R2` shifts down by 1, and every row below `R2` is
unchanged.  In particular the new rows `R1` and `R2` hold the shifted
content of the rows above them — they are not necessarily empty, contrary to
the claim as stated (see `claim_C5_counterexample`). -/
theorem claim_C5 (b : Board) (R1 R2 : Int)
    (hN : 0 < b.nCols)
    (h1 : -2 ≤ R1) (h12 : R1 < R2) (h2 : R2 < (b.nRows : Int))
    (hfullR1 : b.fullRow R1 = true) (hfullR2 : b.fullRow R2 = true)
    (hother : ∀ s : Int, -2 ≤ s → s < (b.nRows : Int) → s ≠ R1 → s ≠ R2 →
      b.fullRow s = false) :
    b.findLinesToClear.linesToClear = [R2, R1] ∧
    (∀ r c₀ : Int, 0 ≤ c₀ → c₀ < (b.nCols : Int) →
      ((-2 ≤ r ∧ r ≤ -1) →
        b.findLinesToClear.clearLines.tileAt r c₀ = TileColor.kEmpty) ∧
      ((0 ≤ r ∧ r ≤ R1 + 1) →
        b.findLinesToClear.clearLines.tileAt r c₀ = b.tileAt (r - 2) c₀) ∧
      ((R1 + 2 ≤ r ∧ r ≤ R2) →
        b.findLinesToClear.clearLines.tileAt r c₀ = b.tileAt (r - 1) c₀) ∧
      ((R2 < r ∧ r < (b.nRows : Int)) →
        b.findLinesToClear.clearLines.tileAt r c₀ = b.tileAt r c₀)) := by
  have key : b.flcAux (b.nRows + 2) ((b.nRows : Int) - 1)
      (((b.nRows + 2 : Nat) : Int) * b.nCols - 1) 0 [] b.tiles =
      ([R2, R1],
       (fun j =>
          if -1 < j - 2 * (b.nCols : Int) ∧ j - 2 * (b.nCols : Int) ≤ (R1 + 2) * (b.nCols : Int) - 1
          then b.tiles (j - 2 * (b.nCols : Int))
          else if (R1 + 3) * (b.nCols : Int) - 1 < j - (b.nCols : Int) ∧
              j - (b.nCols : Int) ≤ (R2 + 2) * (b.nCols : Int) - 1
          then b.tiles (j - (b.nCols : Int))
          else b.tiles j),
       2) := by
    have haa : ((((b.nRows : Int) - 1 - R2).toNat : Int)) = (b.nRows : Int) - 1 - R2 := by omega
    have hcc : (((R2 - 1 - R1).toNat : Int)) = R2 - 1 - R1 := by omega
    have hdd : (((R1 + 2).toNat : Int)) = R1 + 2 := by omega
    set a := ((b.nRows : Int) - 1 - R2).toNat with haDef
    set c := (R2 - 1 - R1).toNat with hcDef
    set d := (R1 + 2).toNat with hdDef
    rw [show b.nRows + 2 = a + (1 + (c + (1 + (d + 0)))) from by omega]
    rw [flc_skip b a (1 + (c + (1 + (d + 0)))) _ _ _ _
      (fun s hs1 hs2 => hother s (by omega) (by omega) (by omega) (by omega))]
    rw [show ((b.nRows : Int) - 1 - (a : Int)) = R2 from by rw [haa]; ring]
    rw [show (((a + (1 + (c + (1 + (d + 0)))) : Nat) : Int) * b.nCols - 1 - (a : Int) * b.nCols)
        = (R2 + 3) * (b.nCols : Int) - 1 from by push_cast; rw [haa, hcc, hdd]; ring]
    rw [show 1 + (c + (1 + (d + 0))) = (c + (1 + (d + 0))) + 1 from by omega]
    rw [flcAux_step_full b _ R2 _ 0 [] b.tiles hfullR2]
    rw [show (R2 + 3) * (b.nCols : Int) - 1 - (b.nCols : Int) = (R2 + 2) * (b.nCols : Int) - 1 from
      by ring]
    rw [Nat.zero_add, List.nil_append]
    rw [flc_copy b 1 (by omega) c (1 + (d + 0)) _ _ _ _
      (fun s hs1 hs2 => hother s (by omega) (by omega) (by omega) (by omega))]
    rw [show (R2 - 1 - (c : Int)) = R1 from by rw [hcc]; ring]
    rw [show ((R2 + 2) * (b.nCols : Int) - 1 - (c : Int) * b.nCols)
        = (R1 + 3) * (b.nCols : Int) - 1 from by rw [hcc]; ring]
    rw [show (((1 : Nat) : Int) * (b.nCols : Int)) = (b.nCols : Int) from by push_cast; ring]
    rw [show 1 + (d + 0) = (d + 0) + 1 from by omega]
    rw [flcAux_step_full b _ R1 _ 1 [R2] _ hfullR1]
    rw [show (R1 + 3) * (b.nCols : Int) - 1 - (b.nCols : Int) = (R1 + 2) * (b.nCols : Int) - 1 from
      by ring]
    rw [show (1 + 1 : Nat) = 2 from rfl]
    rw [show ([R2] ++ [R1] : List Int) = [R2, R1] from rfl]
    rw [show d = d + 0 from (Nat.add_zero d).symm]
    rw [flc_copy b 2 (by omega) d 0 _ _ _ _
      (fun s hs1 hs2 => hother s (by omega) (by omega) (by omega) (by omega))]
    rw [show ((R1 + 2) * (b.nCols : Int) - 1 - (d : Int) * b.nCols) = (-1 : Int) from
      by rw [hdd]; ring]
    rw [show (((2 : Nat) : Int) * (b.nCols : Int)) = 2 * (b.nCols : Int) from by push_cast; ring]
    rw [Board.flcAux]
  have hlines : b.findLinesToClear.linesToClear = [R2, R1] := by
    rw [Board.findLinesToClear, key]
  refine ⟨hlines, fun r c₀ hc0 hcN => ?_⟩
  have hA : b.findLinesToClear.clearLines.tiles = (fun j =>
      if 0 ≤ j ∧ j < 2 * (b.nCols : Int) then TileColor.kEmpty
      else
        if -1 < j - 2 * (b.nCols : Int) ∧ j - 2 * (b.nCols : Int) ≤ (R1 + 2) * (b.nCols : Int) - 1
        then b.tiles (j - 2 * (b.nCols : Int))
        else if (R1 + 3) * (b.nCols : Int) - 1 < j - (b.nCols : Int) ∧
            j - (b.nCols : Int) ≤ (R2 + 2) * (b.nCols : Int) - 1
        then b.tiles (j - (b.nCols : Int))
        else b.tiles j) := by
    rw [Board.findLinesToClear, key]
    rfl
  have htile : ∀ row col : Int, b.findLinesToClear.clearLines.tileAt row col =
      (if 0 ≤ (row + 2) * (b.nCols : Int) + col ∧
          (row + 2) * (b.nCols : Int) + col < 2 * (b.nCols : Int) then TileColor.kEmpty
       else if -1 < (row + 2) * (b.nCols : Int) + col - 2 * (b.nCols : Int) ∧
          (row + 2) * (b.nCols : Int) + col - 2 * (b.nCols : Int) ≤ (R1 + 2) * (b.nCols : Int) - 1
       then b.tiles ((row + 2) * (b.nCols : Int) + col - 2 * (b.nCols : Int))
       else if (R1 + 3) * (b.nCols : Int) - 1 < (row + 2) * (b.nCols : Int) + col - (b.nCols : Int) ∧
          (row + 2) * (b.nCols : Int) + col - (b.nCols : Int) ≤ (R2 + 2) * (b.nCols : Int) - 1
       then b.tiles ((row + 2) * (b.nCols : Int) + col - (b.nCols : Int))
       else b.tiles ((row + 2) * (b.nCols : Int) + col)) := by
    intro row col
    have hnc : b.findLinesToClear.clearLines.nCols = b.nCols := by
      rw [Board.findLinesToClear, key]
      rfl
    rw [Board.tileAt, hnc, hA]
    exact rfl
  have htileB : ∀ row col : Int, b.tileAt row col =
      b.tiles ((row + 2) * (b.nCols : Int) + col) := fun _ _ => rfl
  have hNQ : (0 : Int) < (b.nCols : Int) := by exact_mod_cast hN
  have br0 : (0 : Int) * (b.nCols : Int) = 0 := by ring
  have br1 : (r + 2) * (b.nCols : Int) = r * (b.nCols : Int) + 2 * (b.nCols : Int) := by ring
  have br2 : (r + 1) * (b.nCols : Int) = r * (b.nCols : Int) + (b.nCols : Int) := by ring
  refine ⟨?_, ?_, ?_, ?_⟩
  · intro hr
    have f1 : 0 * (b.nCols : Int) ≤ (r + 2) * (b.nCols : Int) + c₀ :=
      (block_ge_iff _ _ _ _ hNQ hc0 hcN).2 (by omega)
    have f2 : (r + 2) * (b.nCols : Int) + c₀ ≤ 2 * (b.nCols : Int) - 1 :=
      (block_le_iff _ _ _ _ hNQ hc0 hcN).2 (by omega)
    rw [htile r c₀, if_pos ⟨by omega, by omega⟩]
  · intro hr
    have g1 : 2 * (b.nCols : Int) ≤ (r + 2) * (b.nCols : Int) + c₀ :=
      (block_ge_iff _ _ _ _ hNQ hc0 hcN).2 (by omega)
    have g2 : 0 * (b.nCols : Int) ≤ r * (b.nCols : Int) + c₀ :=
      (block_ge_iff _ _ _ _ hNQ hc0 hcN).2 (by omega)
    have g3 : r * (b.nCols : Int) + c₀ ≤ (R1 + 2) * (b.nCols : Int) - 1 :=
      (block_le_iff _ _ _ _ hNQ hc0 hcN).2 (by omega)
    rw [htile r c₀, if_neg (by omega), if_pos ⟨by omega, by omega⟩, htileB]
    congr 1
    ring
  · intro hr
    have g1 : 2 * (b.nCols : Int) ≤ (r + 2) * (b.nCols : Int) + c₀ :=
      (block_ge_iff _ _ _ _ hNQ hc0 hcN).2 (by omega)
    have g4 : (R1 + 2) * (b.nCols : Int) ≤ r * (b.nCols : Int) + c₀ :=
      (block_ge_iff _ _ _ _ hNQ hc0 hcN).2 (by omega)
    have g5 : (R1 + 3) * (b.nCols : Int) ≤ (r + 1) * (b.nCols : Int) + c₀ :=
      (block_ge_iff _ _ _ _ hNQ hc0 hcN).2 (by omega)
    have g6 : (r + 1) * (b.nCols : Int) + c₀ ≤ (R2 + 2) * (b.nCols : Int) - 1 :=
      (block_le_iff _ _ _ _ hNQ hc0 hcN).2 (by omega)
    rw [htile r c₀, if_neg (by omega), if_neg (by omega), if_pos ⟨by omega, by omega⟩, htileB]
    congr 1
    ring
  · intro hr
    have g1 : 2 * (b.nCols : Int) ≤ (r + 2) * (b.nCols : Int) + c₀ :=
      (block_ge_iff _ _ _ _ hNQ hc0 hcN).2 (by omega)
    have g4 : (R1 + 2) * (b.nCols : Int) ≤ r * (b.nCols : Int) + c₀ :=
      (block_ge_iff _ _ _ _ hNQ hc0 hcN).2 (by omega)
    have g7 : (R2 + 2) * (b.nCols : Int) ≤ (r + 1) * (b.nCols : Int) + c₀ :=
      (block_ge_iff _ _ _ _ hNQ hc0 hcN).2 (by omega)
    rw [htile r c₀, if_neg (by omega), if_neg (by omega), if_neg (by omega), htileB]

/-- A 4×2 board in which exactly rows 1 and 3 are full, row 0 holds one tile
at column 0 and row 2 holds one tile at column 0. -/
def c5Board : Board :=
  ((((((Board.mkBoard 4 2).setTile 1 0 .kRed).setTile 1 1 .kRed).setTile 3 0
        .kRed).setTile 3 1 .kRed).setTile 0 0 .kRed).setTile 2 0 .kRed

/-- Counterexample to C5 as stated: with `R1 = 1` and `R2 = 3` full (and no
other row full), the rows are reported correctly, but after `clearLines` row
`R2 = 3` is not empty — it received the former row 2. -/
theorem claim_C5_counterexample :
    c5Board.findLinesToClear.linesToClear = [3, 1] ∧
    c5Board.findLinesToClear.clearLines.tileAt 3 0 ≠ TileColor.kEmpty := by
  decide

/-- Witness for C5 on the concrete 4×2 board: rows reported as `[3, 1]`, and
row 2 receives the former row 0. -/
theorem claim_C5_witness :
    (0 < c5Board.nCols ∧ (-2 : Int) ≤ 1 ∧ (1 : Int) < 3 ∧
      (3 : Int) < (c5Board.nRows : Int) ∧
      c5Board.fullRow 1 = true ∧ c5Board.fullRow 3 = true) ∧
    c5Board.findLinesToClear.linesToClear = [3, 1] ∧
    c5Board.findLinesToClear.clearLines.tileAt 2 0 = c5Board.tileAt 0 0 := by
  have hother : ∀ s : Int, -2 ≤ s → s < (c5Board.nRows : Int) → s ≠ 1 → s ≠ 3 →
      c5Board.fullRow s = false := by
    intro s hs1 hs2 hs3 hs4
    have hs2' : s < 4 := by exact_mod_cast hs2
    interval_cases s
    · decide
    · decide
    · decide
    · exact absurd rfl hs3
    · decide
    · exact absurd rfl hs4
  have h := claim_C5 c5Board 1 3 (by decide) (by decide) (by decide)
    (by decide) (by decide) (by decide) hother
  exact ⟨by decide, h.1, ((h.2 2 0 (by decide) (by decide)).2.1 ⟨by decide, by decide⟩)⟩

/-! ## The game controller (`Tetris` class)

The `double` timers are embedded as exact rationals: every constant of the
source is an exact decimal and the controller only adds, divides and compares
them.  `std::shuffle` is implementation-defined, so it is abstracted as an
oracle `shuffleFn : Nat → List PieceKind → List PieceKind` consumed in call
order (`shuffleCount` plays the role of the mutated RNG state); theorems that
depend on shuffling assume only that each oracle output is a permutation of
its input, which is the one property `std::shuffle` guarantees. -/

/-- `Tetris::kMoveDelay_ = 0.05`. -/
def kMoveDelay : ℚ := 1 / 20
/-- `Tetris::kMoveRepeatDelay_ = 0.15`. -/
def kMoveRepeatDelay : ℚ := 3 / 20
/-- `Tetris::kSoftDropSpeedFactor_ = 20`. -/
def kSoftDropSpeedFactor : ℚ := 20
/-- `Tetris::kLockDownTimeLimit_ = 0.4`. -/
def kLockDownTimeLimit : ℚ := 2 / 5
/-- `Tetris::kLockDownMovesLimit_ = 15`. -/
def kLockDownMovesLimit : Int := 15
/-- `Tetris::kPauseAfterLineClear_ = 0.3`. -/
def kPauseAfterLineClear : ℚ := 3 / 10

/-- The `Tetris` controller state. -/
structure TetrisState where
  board : Board
  gameOver : Bool
  timeStep : ℚ
  shuffleFn : Nat → List PieceKind → List PieceKind
  shuffleCount : Nat
  bag : List PieceKind
  nextPiece : Nat
  level : Int
  linesCleared : Int
  score : Int
  secondsPerLine : ℚ
  moveDownTimer : ℚ
  motion : Motion
  moveLeftPrev : Bool
  moveRightPrev : Bool
  moveRepeatDelayTimer : ℚ
  moveRepeatTimer : ℚ
  isOnGround : Bool
  lockingTimer : ℚ
  nMovesWhileLocking : Int
  pausedForLinesClear : Bool
  linesClearTimer : ℚ

/-- `secondsPerLineForLevel`: `pow(0.8 - (level-1)*0.007, level-1)`.  The
exponent of the source is the integer `level - 1 ≥ 0`, embedded as a natural
power. -/
def secondsPerLineForLevel (level : Int) : ℚ :=
  (4 / 5 - ((level : ℚ) - 1) * (7 / 1000)) ^ (level - 1).toNat

/-- `kNumPieces = 7` of tetris.h. -/
def kNumPieces : Nat := 7

/-- `Tetris::spawnPiece`: draw the kind at the bag cursor, advance it, and
when a 7-entry half is consumed copy the back half to the front, reshuffle
the (vacated) back half and wrap the cursor; finally reset the
moves-while-locking counter. -/
def TetrisState.spawnPiece (s : TetrisState) : TetrisState :=
  let res := s.board.spawnPiece (s.bag.getD s.nextPiece .kNone)
  let s := { s with board := res.2, gameOver := !res.1, nextPiece := s.nextPiece + 1 }
  let s :=
    if s.nextPiece = kNumPieces then
      { s with
        bag := s.bag.drop kNumPieces ++ s.shuffleFn s.shuffleCount (s.bag.drop kNumPieces)
        shuffleCount := s.shuffleCount + 1
        nextPiece := 0 }
    else s
  { s with nMovesWhileLocking := 0 }

/-- `Tetris::restart`: clear the board, reset every flag and timer,
recompute the gravity interval, reshuffle both bag halves independently and
spawn the first piece. -/
def TetrisState.restart (s : TetrisState) (level : Int) : TetrisState :=
  let s := { s with
    board := s.board.clear
    gameOver := false
    level := level
    secondsPerLine := secondsPerLineForLevel level
    linesCleared := 0
    score := 0
    motion := Motion.kNone
    moveLeftPrev := false
    moveRightPrev := false
    moveDownTimer := 0
    moveRepeatTimer := 0
    moveRepeatDelayTimer := 0
    isOnGround := false
    lockingTimer := 0
    pausedForLinesClear := false
    linesClearTimer := 0 }
  let s := { s with
    bag := s.shuffleFn s.shuffleCount (s.bag.take kNumPieces) ++ s.bag.drop kNumPieces
    shuffleCount := s.shuffleCount + 1 }
  let s := { s with
    bag := s.bag.take kNumPieces ++ s.shuffleFn s.shuffleCount (s.bag.drop kNumPieces)
    shuffleCount := s.shuffleCount + 1 }
  s.spawnPiece

/-- The `Tetris` constructor: seed the 14-slot bag with the seven kinds
twice (`std::copy` of the front half onto the back half) and `restart(1)`. -/
def mkTetris (board : Board) (timeStep : ℚ)
    (shuffleFn : Nat → List PieceKind → List PieceKind) : TetrisState :=
  let s : TetrisState :=
    { board := board
      gameOver := false
      timeStep := timeStep
      shuffleFn := shuffleFn
      shuffleCount := 0
      bag := [.kPieceI, .kPieceJ, .kPieceL, .kPieceO, .kPieceS, .kPieceT, .kPieceZ,
              .kPieceI, .kPieceJ, .kPieceL, .kPieceO, .kPieceS, .kPieceT, .kPieceZ]
      nextPiece := 0
      level := 0
      linesCleared := 0
      score := 0
      secondsPerLine := 0
      moveDownTimer := 0
      motion := Motion.kNone
      moveLeftPrev := false
      moveRightPrev := false
      moveRepeatDelayTimer := 0
      moveRepeatTimer := 0
      isOnGround := false
      lockingTimer := 0
      nMovesWhileLocking := 0
      pausedForLinesClear := false
      linesClearTimer := 0 }
  s.restart 1

/-- `Tetris::lockPercent`. -/
def TetrisState.lockPercent (s : TetrisState) : ℚ :=
  s.lockingTimer / kLockDownTimeLimit

/-- `Tetris::linesClearPausePercent`. -/
def TetrisState.linesClearPausePercent (s : TetrisState) : ℚ :=
  s.linesClearTimer / kPauseAfterLineClear

/-- `Tetris::lock`: reset the locking state, freeze the piece; if nothing
landed at or below the skyline raise game over; otherwise spawn at once when
no lines are pending, or enter the line-clear pause. -/
def TetrisState.lock (s : TetrisState) : TetrisState :=
  let s := { s with lockingTimer := 0, isOnGround := false }
  let res := s.board.frozePiece
  let s := { s with board := res.2 }
  if !res.1 then { s with gameOver := true }
  else if s.board.linesToClear.length = 0 then s.spawnPiece
  else { s with pausedForLinesClear := true, linesClearTimer := 0 }

/-- `Tetris::checkLock`: sync the grounded flag with the board; while
grounded, lock as soon as the locking timer reaches the lock-delay limit or
the moves-while-locking counter reaches its cap. -/
def TetrisState.checkLock (s : TetrisState) : TetrisState :=
  if !s.board.isOnGround then { s with isOnGround := false }
  else
    let s := { s with isOnGround := true }
    if s.lockingTimer ≥ kLockDownTimeLimit ∨ s.nMovesWhileLocking ≥ kLockDownMovesLimit
    then s.lock
    else s

/-- `Tetris::moveHorizontal`: a successful move while grounded resets the
locking timer and counts against the moves-while-locking cap. -/
def TetrisState.moveHorizontal (s : TetrisState) (dCol : Int) : TetrisState :=
  let res := s.board.moveHorizontal dCol
  let s := { s with board := res.2 }
  if res.1 ∧ s.isOnGround then
    { s with lockingTimer := 0, nMovesWhileLocking := s.nMovesWhileLocking + 1 }
  else s

/-- `Tetris::rotate`: same grounded side effect as a successful horizontal
move, then re-run the lock check. -/
def TetrisState.rotate (s : TetrisState) (rotation : Rotation) : TetrisState :=
  let res := s.board.rotate rotation
  let s := { s with board := res.2 }
  let s :=
    if res.1 ∧ s.isOnGround then
      { s with lockingTimer := 0, nMovesWhileLocking := s.nMovesWhileLocking + 1 }
    else s
  s.checkLock

/-- `Tetris::hardDrop`: no-op without an active piece; otherwise score the
drop distance and lock immediately. -/
def TetrisState.hardDrop (s : TetrisState) : TetrisState :=
  if s.board.piece.kind = .kNone then s
  else
    let res := s.board.hardDrop
    let s := { s with board := res.2, score := s.score + 2 * s.level * res.1 }
    s.lock

/-- The left/right block of `Tetris::update`: first frame of a new hold
moves immediately and resets both repeat timers; later frames move once both
the initial delay and the repeat interval have elapsed; the motion direction
is recorded.  `moveRight`/`moveLeft` are the already-arbitrated values. -/
def TetrisState.horizInput (s : TetrisState) (moveRight moveLeft : Bool) : TetrisState :=
  if moveRight then
    let s :=
      if s.motion ≠ Motion.kRight then
        TetrisState.moveHorizontal
          { s with moveRepeatDelayTimer := 0, moveRepeatTimer := 0 } 1
      else if s.moveRepeatDelayTimer ≥ kMoveRepeatDelay ∧ s.moveRepeatTimer ≥ kMoveDelay
      then TetrisState.moveHorizontal { s with moveRepeatTimer := 0 } 1
      else s
    { s with motion := Motion.kRight }
  else if moveLeft then
    let s :=
      if s.motion ≠ Motion.kLeft then
        TetrisState.moveHorizontal
          { s with moveRepeatDelayTimer := 0, moveRepeatTimer := 0 } (-1)
      else if s.moveRepeatDelayTimer ≥ kMoveRepeatDelay ∧ s.moveRepeatTimer ≥ kMoveDelay
      then TetrisState.moveHorizontal { s with moveRepeatTimer := 0 } (-1)
      else s
    { s with motion := Motion.kLeft }
  else { s with motion := Motion.kNone }

/-- The gravity block of `Tetris::update`: effective interval
`secondsPerLine / (softDrop ? 20 : 1)`; on expiry attempt one downward move
(the conditional with the empty body in the source adds nothing beyond the
move itself) and reset the timer. -/
def TetrisState.gravity (s : TetrisState) (softDrop : Bool) : TetrisState :=
  let speedFactor : ℚ := if softDrop then kSoftDropSpeedFactor else 1
  if s.moveDownTimer ≥ s.secondsPerLine / speedFactor then
    let res := s.board.moveVertical 1
    { s with board := res.2, moveDownTimer := 0 }
  else s

/-- The body of `Tetris::update` after the line-clear-pause block: advance
the timers (the locking timer only while grounded, else reset it),
arbitrate simultaneous left/right input (prefer the key not held last frame,
else keep the current motion), apply the horizontal block, record the raw
inputs, apply gravity, and re-run the lock check. -/
def TetrisState.updateMain (s : TetrisState) (softDrop moveRight moveLeft : Bool) :
    TetrisState :=
  let s := { s with
    moveDownTimer := s.moveDownTimer + s.timeStep
    moveRepeatTimer := s.moveRepeatTimer + s.timeStep
    moveRepeatDelayTimer := s.moveRepeatDelayTimer + s.timeStep }
  let s :=
    if s.isOnGround then { s with lockingTimer := s.lockingTimer + s.timeStep }
    else { s with lockingTimer := 0 }
  let moveLeftInput := moveLeft
  let moveRightInput := moveRight
  let arb : Bool × Bool :=
    if moveLeft ∧ moveRight then
      if !s.moveRightPrev then (moveRight, false)
      else if !s.moveLeftPrev then (false, moveLeft)
      else if s.motion = Motion.kLeft then (false, moveLeft)
      else (moveRight, false)
    else (moveRight, moveLeft)
  let s := s.horizInput arb.1 arb.2
  let s := { s with moveLeftPrev := moveLeftInput, moveRightPrev := moveRightInput }
  let s := s.gravity softDrop
  s.checkLock

/-- `Tetris::update`: while paused for a line clear, accumulate the pause
timer and return early below the pause duration; on expiry commit the clear,
spawn the next piece and leave the paused state, then run the normal frame
body. -/
def TetrisState.update (s : TetrisState) (softDrop moveRight moveLeft : Bool) :
    TetrisState :=
  let s1 :=
    if s.pausedForLinesClear then
      { s with linesClearTimer := s.linesClearTimer + s.timeStep }
    else s
  if s.pausedForLinesClear ∧ s1.linesClearTimer < kPauseAfterLineClear then s1
  else
    let s2 :=
      if s.pausedForLinesClear then
        let sA := { s1 with board := s1.board.clearLines }
        let sB := sA.spawnPiece
        { sB with pausedForLinesClear := false }
      else s1
    s2.updateMain softDrop moveRight moveLeft

/-! ### Lock-pipeline field lemmas -/

/-- `Tetris::spawnPiece` leaves the locking timer unchanged. -/
theorem spawnPiece_lockingTimer (s : TetrisState) :
    s.spawnPiece.lockingTimer = s.lockingTimer := by
  simp only [TetrisState.spawnPiece]
  split <;> rfl

/-- `Tetris::spawnPiece` leaves the grounded flag unchanged. -/
theorem spawnPiece_isOnGround (s : TetrisState) :
    s.spawnPiece.isOnGround = s.isOnGround := by
  simp only [TetrisState.spawnPiece]
  split <;> rfl

/-- `Tetris::spawnPiece` leaves the timestep unchanged. -/
theorem spawnPiece_timeStep (s : TetrisState) :
    s.spawnPiece.timeStep = s.timeStep := by
  simp only [TetrisState.spawnPiece]
  split <;> rfl

/-- `Tetris::spawnPiece` zeroes the moves-while-locking counter. -/
theorem spawnPiece_nMoves (s : TetrisState) :
    s.spawnPiece.nMovesWhileLocking = 0 := rfl

/-- `Tetris::spawnPiece` leaves the pause flag unchanged. -/
theorem spawnPiece_paused (s : TetrisState) :
    s.spawnPiece.pausedForLinesClear = s.pausedForLinesClear := by
  simp only [TetrisState.spawnPiece]
  split <;> rfl

/-- `Tetris::spawnPiece` leaves the pause timer unchanged. -/
theorem spawnPiece_linesClearTimer (s : TetrisState) :
    s.spawnPiece.linesClearTimer = s.linesClearTimer := by
  simp only [TetrisState.spawnPiece]
  split <;> rfl

/-- `Tetris::lock` zeroes the locking timer. -/
theorem lock_lockingTimer (s : TetrisState) : s.lock.lockingTimer = 0 := by
  simp only [TetrisState.lock]
  split
  · rfl
  · split
    · exact spawnPiece_lockingTimer _
    · rfl

/-- `Tetris::lock` clears the grounded flag. -/
theorem lock_isOnGround (s : TetrisState) : s.lock.isOnGround = false := by
  simp only [TetrisState.lock]
  split
  · rfl
  · split
    · exact spawnPiece_isOnGround _
    · rfl

/-- `Tetris::lock` leaves the timestep unchanged. -/
theorem lock_timeStep (s : TetrisState) : s.lock.timeStep = s.timeStep := by
  simp only [TetrisState.lock]
  split
  · rfl
  · split
    · exact spawnPiece_timeStep _
    · rfl

/-- After `Tetris::lock` the moves-while-locking counter is zero (a spawn
followed) or unchanged (game over, or line-clear pause entered). -/
theorem lock_nMoves (s : TetrisState) :
    s.lock.nMovesWhileLocking = 0 ∨ s.lock.nMovesWhileLocking = s.nMovesWhileLocking := by
  simp only [TetrisState.lock]
  split
  · exact Or.inr rfl
  · split
    · exact Or.inl (spawnPiece_nMoves _)
    · exact Or.inr rfl

/-- `Tetris::lock` either leaves the pause flag and pause timer untouched or
enters a freshly zeroed line-clear pause. -/
theorem lock_paused (s : TetrisState) :
    (s.lock.pausedForLinesClear = s.pausedForLinesClear ∧
      s.lock.linesClearTimer = s.linesClearTimer) ∨
    (s.lock.pausedForLinesClear = true ∧ s.lock.linesClearTimer = 0) := by
  simp only [TetrisState.lock]
  split
  · exact Or.inl ⟨rfl, rfl⟩
  · split
    · exact Or.inl ⟨spawnPiece_paused _, spawnPiece_linesClearTimer _⟩
    · exact Or.inr ⟨rfl, rfl⟩

/-- C3 (amended): `hardDrop` on an active piece is exactly a scored drop to
the ghost row followed by an immediate `lock()`.  The locking timer is reset
(by `lock`), but the moves-while-locking counter is never incremented: it is
either zeroed by the spawn that follows a successful lock or left unchanged
when the lock overflows or enters the line-clear pause. -/
theorem claim_C3 (s : TetrisState) (h : s.board.piece.kind ≠ .kNone) :
    s.hardDrop = TetrisState.lock
      { s with
        board := s.board.hardDrop.2
        score := s.score + 2 * s.level * s.board.hardDrop.1 } ∧
    s.hardDrop.lockingTimer = 0 ∧
    (s.hardDrop.nMovesWhileLocking = 0 ∨
      s.hardDrop.nMovesWhileLocking = s.nMovesWhileLocking) := by
  have h1 : s.hardDrop = TetrisState.lock
      { s with
        board := s.board.hardDrop.2
        score := s.score + 2 * s.level * s.board.hardDrop.1 } := by
    unfold TetrisState.hardDrop
    rw [if_neg h]
  refine ⟨h1, ?_, ?_⟩
  · rw [h1]
    exact lock_lockingTimer _
  · rw [h1]
    exact lock_nMoves _

/-- The controller state reached by `Tetris(Board(2,3), 0, rng)` (with a
shuffle oracle rotating the bag so that O is drawn first) followed by one
`hardDrop`: the O piece locks at the bottom, and the next piece spawns
entirely inside the hidden rows, grounded, with the move counter at 0. -/
def c3State : TetrisState :=
  (mkTetris (Board.mkBoard 2 3) 0 (fun _ l => l.rotate 3)).hardDrop

/-- Counterexample to C3 as stated: `hardDrop` on this grounded piece locks
it (overflow: nothing at or below the skyline, so no spawn follows), and the
moves-while-locking counter is NOT incremented — it stays at 0. -/
theorem claim_C3_counterexample :
    c3State.board.piece.kind ≠ .kNone ∧
    c3State.board.isOnGround = true ∧
    c3State.nMovesWhileLocking = 0 ∧
    c3State.hardDrop.nMovesWhileLocking = 0 ∧
    c3State.hardDrop.nMovesWhileLocking ≠ c3State.nMovesWhileLocking + 1 := by
  decide

/-- Witness for C3 at the same concrete state. -/
theorem claim_C3_witness :
    c3State.board.piece.kind ≠ .kNone ∧ c3State.hardDrop.lockingTimer = 0 :=
  ⟨by decide, (claim_C3 c3State (by decide)).2.1⟩

/-- C8: the grounded test, the dual lock condition, and the move-cap path.
`isOnGround` is precisely "one row down is not collision-valid"; `checkLock`
syncs the grounded flag with the board and, while grounded, locks exactly
when the locking timer has reached the lock-delay limit or the
moves-while-locking counter has reached its cap; each successful horizontal
move while grounded increments the counter (and resets the timer), so once
the counter reaches the cap — after exactly the cap number of successful
grounded moves from a fresh spawn's 0 — the next `checkLock` on the still
grounded piece locks it. -/
theorem claim_C8 :
    (∀ b : Board, b.isOnGround = true ↔
      b.isPositionPossible (b.row + 1) b.col b.piece = false) ∧
    (∀ s : TetrisState, s.board.isOnGround = false →
      s.checkLock = { s with isOnGround := false }) ∧
    (∀ s : TetrisState, s.board.isOnGround = true →
      (s.lockingTimer ≥ kLockDownTimeLimit ∨ s.nMovesWhileLocking ≥ kLockDownMovesLimit →
        s.checkLock = TetrisState.lock { s with isOnGround := true }) ∧
      (s.lockingTimer < kLockDownTimeLimit ∧ s.nMovesWhileLocking < kLockDownMovesLimit →
        s.checkLock = { s with isOnGround := true })) ∧
    (∀ (s : TetrisState) (dCol : Int), (s.board.moveHorizontal dCol).1 = true →
      s.isOnGround = true →
      (s.moveHorizontal dCol).nMovesWhileLocking = s.nMovesWhileLocking + 1 ∧
      (s.moveHorizontal dCol).lockingTimer = 0) ∧
    (∀ s : TetrisState, s.board.isOnGround = true →
      s.nMovesWhileLocking = kLockDownMovesLimit →
      s.checkLock = TetrisState.lock { s with isOnGround := true }) := by
  have hsync : ∀ s : TetrisState, s.board.isOnGround = true →
      (s.lockingTimer ≥ kLockDownTimeLimit ∨ s.nMovesWhileLocking ≥ kLockDownMovesLimit →
        s.checkLock = TetrisState.lock { s with isOnGround := true }) ∧
      (s.lockingTimer < kLockDownTimeLimit ∧ s.nMovesWhileLocking < kLockDownMovesLimit →
        s.checkLock = { s with isOnGround := true }) := by
    intro s hg
    constructor
    · intro hcond
      unfold TetrisState.checkLock
      rw [if_neg (by simp [hg]), if_pos hcond]
    · intro hcond
      unfold TetrisState.checkLock
      rw [if_neg (by simp [hg]), if_neg]
      intro hor
      rcases hor with ho | ho
      · exact absurd ho (not_le.2 hcond.1)
      · exact absurd ho (not_le.2 hcond.2)
  refine ⟨?_, ?_, hsync, ?_, ?_⟩
  · intro b
    unfold Board.isOnGround
    simp
  · intro s hg
    unfold TetrisState.checkLock
    rw [if_pos (by simp [hg])]
  · intro s dCol hmv hg
    unfold TetrisState.moveHorizontal
    rw [if_pos ⟨hmv, hg⟩]
    exact ⟨rfl, rfl⟩
  · intro s hg hcap
    exact (hsync s hg).1 (Or.inr (le_of_eq hcap.symm))

/-- The freshly restarted controller on a 2×3 board with the O piece drawn
first: the piece settles grounded on the floor with a zero locking timer. -/
def c8State : TetrisState :=
  mkTetris (Board.mkBoard 2 3) 0 (fun _ l => l.rotate 3)

/-- Witness for C8: the grounded fresh piece with timer and counter below
their limits is marked grounded and not locked. -/
theorem claim_C8_witness :
    c8State.board.isOnGround = true ∧
    (c8State.lockingTimer < kLockDownTimeLimit ∧
      c8State.nMovesWhileLocking < kLockDownMovesLimit) ∧
    c8State.checkLock = { c8State with isOnGround := true } := by
  have ht : c8State.lockingTimer = 0 := rfl
  have h1 : c8State.lockingTimer < kLockDownTimeLimit := by
    rw [ht]; norm_num [kLockDownTimeLimit]
  have h2 : c8State.nMovesWhileLocking < kLockDownMovesLimit := by decide
  exact ⟨by decide, ⟨h1, h2⟩, (claim_C8.2.2.1 c8State (by decide)).2 ⟨h1, h2⟩⟩

/-- C10: `Board::rotate` on the O kind (or the none sentinel) refuses
immediately, returning `false` with the board — piece, anchor and ghost row —
entirely unchanged; consequently the controller's `rotate` with an O piece
leaves the board, the locking timer and the moves-while-locking counter
unchanged, provided the timer and counter are below their limits, as they
are in every state the controller can be observed in (`checkLock` would
already have locked the piece otherwise). -/
theorem claim_C10 :
    (∀ (b : Board) (rot : Rotation),
      b.piece.kind = .kPieceO ∨ b.piece.kind = .kNone → b.rotate rot = (false, b)) ∧
    (∀ (s : TetrisState) (rot : Rotation), s.board.piece.kind = .kPieceO →
      s.lockingTimer < kLockDownTimeLimit → s.nMovesWhileLocking < kLockDownMovesLimit →
      (s.rotate rot).lockingTimer = s.lockingTimer ∧
      (s.rotate rot).nMovesWhileLocking = s.nMovesWhileLocking ∧
      (s.rotate rot).board = s.board) := by
  have hb : ∀ (b : Board) (rot : Rotation),
      b.piece.kind = .kPieceO ∨ b.piece.kind = .kNone → b.rotate rot = (false, b) := by
    intro b rot h
    unfold Board.rotate
    rw [if_pos h]
  refine ⟨hb, ?_⟩
  intro s rot h h1 h2
  have hrot : s.rotate rot = TetrisState.checkLock s := by
    unfold TetrisState.rotate
    rw [hb s.board rot (Or.inl h)]
    rfl
  rw [hrot]
  unfold TetrisState.checkLock
  split
  · exact ⟨rfl, rfl, rfl⟩
  · rw [if_neg]
    · exact ⟨rfl, rfl, rfl⟩
    · intro hor
      rcases hor with ho | ho
      · exact absurd ho (not_le.2 h1)
      · exact absurd ho (not_le.2 h2)

/-- Witness for C10 at the grounded O piece of `c8State`. -/
theorem claim_C10_witness :
    (c8State.board.piece.kind = .kPieceO ∧
      c8State.lockingTimer < kLockDownTimeLimit ∧
      c8State.nMovesWhileLocking < kLockDownMovesLimit) ∧
    (c8State.rotate .kRight).board = c8State.board := by
  have ht : c8State.lockingTimer = 0 := rfl
  have h1 : c8State.lockingTimer < kLockDownTimeLimit := by
    rw [ht]; norm_num [kLockDownTimeLimit]
  have h2 : c8State.nMovesWhileLocking < kLockDownMovesLimit := by decide
  exact ⟨⟨by decide, h1, h2⟩, (claim_C10.2 c8State .kRight (by decide) h1 h2).2.2⟩

/-! ### Failed spawns (claim C2) -/

/-- A failed `Board::spawnPiece` leaves the tiles and pending lines
untouched, but stores the freshly constructed piece at the colliding start
anchor. -/
theorem board_spawn_fail (b : Board) (k : PieceKind)
    (h : (b.spawnPiece k).1 = false) :
    (b.spawnPiece k).2.tiles = b.tiles ∧
    (b.spawnPiece k).2.linesToClear = b.linesToClear ∧
    (b.spawnPiece k).2.piece.kind = k ∧
    (b.spawnPiece k).2.row = -2 ∧
    (b.spawnPiece k).2.isPositionPossible (b.spawnPiece k).2.row (b.spawnPiece k).2.col
      (b.spawnPiece k).2.piece = false := by
  simp only [Board.spawnPiece] at h ⊢
  split at h
  · rename_i hposs
    rw [if_pos hposs]
    rw [Bool.not_eq_true] at hposs
    exact ⟨rfl, rfl, mkPiece_kind k, rfl, hposs⟩
  · exact absurd h (by simp)

/-- C2 (amended): when the controller's spawn draws a kind whose start
position immediately collides, the game-over flag is set and the tiles and
pending lines are untouched — but the board is not otherwise unmutated: the
active-piece slot now holds the drawn piece at the colliding anchor
(row −2), at a collision-invalid position.  An active piece therefore still
exists, and subsequent gameplay commands act on it (they are no-ops only
when their own target positions collide — see
`claim_C2_counterexample`). -/
theorem claim_C2 (s : TetrisState)
    (h : (s.board.spawnPiece (s.bag.getD s.nextPiece .kNone)).1 = false) :
    s.spawnPiece.gameOver = true ∧
    s.spawnPiece.board.tiles = s.board.tiles ∧
    s.spawnPiece.board.linesToClear = s.board.linesToClear ∧
    s.spawnPiece.board.piece.kind = s.bag.getD s.nextPiece .kNone ∧
    s.spawnPiece.board.row = -2 ∧
    s.spawnPiece.board.isPositionPossible s.spawnPiece.board.row s.spawnPiece.board.col
      s.spawnPiece.board.piece = false := by
  have hboard : s.spawnPiece.board =
      (s.board.spawnPiece (s.bag.getD s.nextPiece .kNone)).2 := by
    simp only [TetrisState.spawnPiece]
    split <;> rfl
  have hgo : s.spawnPiece.gameOver =
      !(s.board.spawnPiece (s.bag.getD s.nextPiece .kNone)).1 := by
    simp only [TetrisState.spawnPiece]
    split <;> rfl
  have hf := board_spawn_fail s.board (s.bag.getD s.nextPiece .kNone) h
  rw [hboard, hgo, h]
  exact ⟨rfl, hf.1, hf.2.1, hf.2.2.1, hf.2.2.2.1, hf.2.2.2.2⟩

/-- The board reached from a fresh 1×4 board by public operations: spawn an
O piece (it settles at row −1, columns 1–2), freeze it, then spawn a second
O piece, which collides at the start anchor. -/
def c2Board : Board :=
  BOp.apply (.spawn .kPieceO)
    (BOp.apply .froze
      (BOp.apply (.spawn .kPieceO) (Board.mkBoard 1 4)))

/-- Counterexample to C2 as stated: after the failed spawn an active piece
very much exists (its kind is O, not the none sentinel), and a further
gameplay command is not a no-op on the board — a hard drop moves the anchor
to the stale ghost row. -/
theorem claim_C2_counterexample :
    c2Board.piece.kind ≠ .kNone ∧
    c2Board.hardDrop.2.row ≠ c2Board.row := by
  decide

/-- A controller state holding the frozen-O board of `c2Board` whose next
draw (the J piece, at bag index 1 after the identity shuffle) collides at
the spawn anchor. -/
def c2State : TetrisState :=
  { mkTetris (Board.mkBoard 1 4) 0 (fun _ l => l) with
    board := BOp.apply .froze (BOp.apply (.spawn .kPieceO) (Board.mkBoard 1 4)) }

/-- Witness for C2: the drawn J piece collides immediately; the spawn sets
the game-over flag. -/
theorem claim_C2_witness :
    (c2State.board.spawnPiece (c2State.bag.getD c2State.nextPiece .kNone)).1 = false ∧
    c2State.spawnPiece.gameOver = true :=
  ⟨by decide, (claim_C2 c2State (by decide)).1⟩

/-! ### Reachable-state invariant of the controller (claim C4) -/

/-- Inductive invariant of the controller: a sane timestep, a locking timer
within `[0, kLockDownTimeLimit_]`, a grounded flag that never claims ground
contact the board does not have, and — while the line-clear pause is active —
a pause timer within `[0, kPauseAfterLineClear_)` with a zeroed locking
timer. -/
def CtrlInv (s : TetrisState) : Prop :=
  0 ≤ s.timeStep ∧ s.timeStep ≤ kLockDownTimeLimit ∧
  0 ≤ s.lockingTimer ∧ s.lockingTimer ≤ kLockDownTimeLimit ∧
  (s.isOnGround = true → s.board.isOnGround = true) ∧
  (s.pausedForLinesClear = true →
    0 ≤ s.linesClearTimer ∧ s.linesClearTimer < kPauseAfterLineClear ∧
    s.lockingTimer = 0)

/-- `checkLock` establishes the invariant: when it locks, every timer is
zeroed (or a fresh pause is entered); when it does not, the no-lock
condition itself bounds the locking timer. -/
theorem checkLock_inv (t : TetrisState)
    (hts0 : 0 ≤ t.timeStep) (hts1 : t.timeStep ≤ kLockDownTimeLimit)
    (hlk0 : 0 ≤ t.lockingTimer)
    (hub : t.board.isOnGround = false → t.lockingTimer ≤ kLockDownTimeLimit)
    (hpz : t.pausedForLinesClear = true →
      0 ≤ t.linesClearTimer ∧ t.linesClearTimer < kPauseAfterLineClear ∧
      t.lockingTimer = 0) :
    CtrlInv t.checkLock ∧ t.checkLock.timeStep = t.timeStep := by
  simp only [TetrisState.checkLock]
  split
  · rename_i hg
    have hgf : t.board.isOnGround = false := by simpa using hg
    refine ⟨⟨hts0, hts1, hlk0, hub hgf, ?_, hpz⟩, rfl⟩
    intro hcontra
    exact absurd hcontra (by simp)
  · rename_i hg
    have hgt : t.board.isOnGround = true := by simpa using hg
    split
    · constructor
      · refine ⟨?_, ?_, ?_, ?_, ?_, ?_⟩
        · rw [lock_timeStep]; exact hts0
        · rw [lock_timeStep]; exact hts1
        · rw [lock_lockingTimer]
        · rw [lock_lockingTimer]; norm_num [kLockDownTimeLimit]
        · rw [lock_isOnGround]; intro hcontra; exact absurd hcontra (by simp)
        · intro hpause
          rcases lock_paused { t with isOnGround := true } with ⟨hpEq, hcEq⟩ | ⟨_, hc0⟩
          · rw [hpEq] at hpause
            have := hpz hpause
            rw [hcEq, lock_lockingTimer]
            exact ⟨this.1, this.2.1, rfl⟩
          · rw [hc0, lock_lockingTimer]
            refine ⟨le_refl 0, ?_, rfl⟩
            norm_num [kPauseAfterLineClear]
      · exact lock_timeStep _
    · rename_i hcond
      push_neg at hcond
      exact ⟨⟨hts0, hts1, hlk0, le_of_lt hcond.1, fun _ => hgt, hpz⟩, rfl⟩

/-- A failed `Board::moveHorizontal` leaves the board unchanged. -/
theorem board_moveH_fail (b : Board) (d : Int)
    (h : (b.moveHorizontal d).1 = false) : (b.moveHorizontal d).2 = b := by
  unfold Board.moveHorizontal at h ⊢
  split at h
  · exact absurd h (by simp)
  · split
    · rename_i h1 h2; exact absurd h2 h1
    · rfl

/-- The controller's `moveHorizontal` never touches the timestep, grounded
flag or pause state; the locking timer is left alone or zeroed, and either
the board is unchanged or (when the flag claims ground contact) the locking
timer has been zeroed. -/
theorem tmoveH_spec (s : TetrisState) (d : Int) :
    (s.moveHorizontal d).timeStep = s.timeStep ∧
    (s.moveHorizontal d).isOnGround = s.isOnGround ∧
    (s.moveHorizontal d).pausedForLinesClear = s.pausedForLinesClear ∧
    (s.moveHorizontal d).linesClearTimer = s.linesClearTimer ∧
    ((s.moveHorizontal d).lockingTimer = s.lockingTimer ∨
      (s.moveHorizontal d).lockingTimer = 0) ∧
    ((s.moveHorizontal d).board = s.board ∨
      (s.isOnGround = true → (s.moveHorizontal d).lockingTimer = 0)) := by
  simp only [TetrisState.moveHorizontal]
  split
  · exact ⟨rfl, rfl, rfl, rfl, Or.inr rfl, Or.inr fun _ => rfl⟩
  · rename_i hc
    refine ⟨rfl, rfl, rfl, rfl, Or.inl rfl, ?_⟩
    by_cases hflag : s.isOnGround = true
    · have hres : (s.board.moveHorizontal d).1 = false := by
        cases hres : (s.board.moveHorizontal d).1 with
        | false => rfl
        | true => exact absurd ⟨hres, hflag⟩ hc
      exact Or.inl (board_moveH_fail s.board d hres)
    · exact Or.inr fun h => absurd h hflag

/-- The horizontal-input block has the same frame properties as a single
`moveHorizontal` (it only adds motion bookkeeping and repeat-timer
resets). -/
theorem horizInput_spec (s : TetrisState) (mr ml : Bool) :
    (s.horizInput mr ml).timeStep = s.timeStep ∧
    (s.horizInput mr ml).isOnGround = s.isOnGround ∧
    (s.horizInput mr ml).pausedForLinesClear = s.pausedForLinesClear ∧
    (s.horizInput mr ml).linesClearTimer = s.linesClearTimer ∧
    ((s.horizInput mr ml).lockingTimer = s.lockingTimer ∨
      (s.horizInput mr ml).lockingTimer = 0) ∧
    ((s.horizInput mr ml).board = s.board ∨
      (s.isOnGround = true → (s.horizInput mr ml).lockingTimer = 0)) := by
  simp only [TetrisState.horizInput]
  split
  · split
    · exact tmoveH_spec _ 1
    · split
      · exact tmoveH_spec _ 1
      · exact ⟨rfl, rfl, rfl, rfl, Or.inl rfl, Or.inl rfl⟩
  · split
    · split
      · exact tmoveH_spec _ (-1)
      · split
        · exact tmoveH_spec _ (-1)
        · exact ⟨rfl, rfl, rfl, rfl, Or.inl rfl, Or.inl rfl⟩
    · exact ⟨rfl, rfl, rfl, rfl, Or.inl rfl, Or.inl rfl⟩

/-- A grounded piece cannot move down. -/
theorem moveV_of_grounded (b : Board) (h : b.isOnGround = true) :
    (b.moveVertical 1).2 = b := by
  unfold Board.isOnGround at h
  simp only [decide_eq_true_eq] at h
  unfold Board.moveVertical
  rw [if_neg]
  intro hposs
  rw [hposs] at h
  exact absurd rfl h

/-- The gravity block never touches the lock bookkeeping, pause state or
timestep, and cannot move a grounded piece. -/
theorem gravity_spec (s : TetrisState) (sd : Bool) :
    (s.gravity sd).timeStep = s.timeStep ∧
    (s.gravity sd).isOnGround = s.isOnGround ∧
    (s.gravity sd).pausedForLinesClear = s.pausedForLinesClear ∧
    (s.gravity sd).linesClearTimer = s.linesClearTimer ∧
    (s.gravity sd).lockingTimer = s.lockingTimer ∧
    (s.gravity sd).nMovesWhileLocking = s.nMovesWhileLocking ∧
    (s.board.isOnGround = true → (s.gravity sd).board = s.board) := by
  simp only [TetrisState.gravity]
  split <;> split
  all_goals
    first
      | exact ⟨rfl, rfl, rfl, rfl, rfl, rfl, fun h => moveV_of_grounded s.board h⟩
      | exact ⟨rfl, rfl, rfl, rfl, rfl, rfl, fun _ => rfl⟩

/-- Composing gravity with the final lock check preserves the controller
invariant whenever the incoming locking timer is in range for a
non-grounded board. -/
theorem gravityCheck_inv (p : TetrisState) (sd : Bool)
    (hts0 : 0 ≤ p.timeStep) (hts1 : p.timeStep ≤ kLockDownTimeLimit)
    (hlk0 : 0 ≤ p.lockingTimer)
    (hub : p.board.isOnGround = false → p.lockingTimer ≤ kLockDownTimeLimit)
    (hpaused : p.pausedForLinesClear = false) :
    CtrlInv (p.gravity sd).checkLock ∧
      (p.gravity sd).checkLock.timeStep = p.timeStep := by
  obtain ⟨hgt, hgg, hgp, hgc, hgl, hgn, hgb⟩ := gravity_spec p sd
  have hub2 : (p.gravity sd).board.isOnGround = false →
      (p.gravity sd).lockingTimer ≤ kLockDownTimeLimit := by
    intro hG
    rw [hgl]
    apply hub
    by_contra hc
    have hpb : p.board.isOnGround = true := by
      cases h : p.board.isOnGround with
      | true => rfl
      | false => exact absurd h hc
    rw [hgb hpb, hpb] at hG
    exact Bool.noConfusion hG
  have hpz : (p.gravity sd).pausedForLinesClear = true →
      0 ≤ (p.gravity sd).linesClearTimer ∧
      (p.gravity sd).linesClearTimer < kPauseAfterLineClear ∧
      (p.gravity sd).lockingTimer = 0 := by
    intro hcontra
    rw [hgp, hpaused] at hcontra
    exact Bool.noConfusion hcontra
  have hmain := checkLock_inv (p.gravity sd) (by rw [hgt]; exact hts0)
    (by rw [hgt]; exact hts1) (by rw [hgl]; exact hlk0) hub2 hpz
  exact ⟨hmain.1, hmain.2.trans hgt⟩

/-- The timer-accumulation prologue of `Tetris::update`: advance the repeat
timers; advance the locking timer while the grounded flag is set, zero it
otherwise. -/
def tickTimers (s : TetrisState) : TetrisState :=
  if s.isOnGround then
    { s with
      moveDownTimer := s.moveDownTimer + s.timeStep
      moveRepeatTimer := s.moveRepeatTimer + s.timeStep
      moveRepeatDelayTimer := s.moveRepeatDelayTimer + s.timeStep
      lockingTimer := s.lockingTimer + s.timeStep }
  else
    { s with
      moveDownTimer := s.moveDownTimer + s.timeStep
      moveRepeatTimer := s.moveRepeatTimer + s.timeStep
      moveRepeatDelayTimer := s.moveRepeatDelayTimer + s.timeStep
      lockingTimer := 0 }

theorem tickTimers_timeStep (s : TetrisState) :
    (tickTimers s).timeStep = s.timeStep := by
  unfold tickTimers; split <;> rfl

theorem tickTimers_board (s : TetrisState) : (tickTimers s).board = s.board := by
  unfold tickTimers; split <;> rfl

theorem tickTimers_isOnGround (s : TetrisState) :
    (tickTimers s).isOnGround = s.isOnGround := by
  unfold tickTimers; split <;> rfl

theorem tickTimers_paused (s : TetrisState) :
    (tickTimers s).pausedForLinesClear = s.pausedForLinesClear := by
  unfold tickTimers; split <;> rfl

theorem tickTimers_linesClearTimer (s : TetrisState) :
    (tickTimers s).linesClearTimer = s.linesClearTimer := by
  unfold tickTimers; split <;> rfl

theorem tickTimers_nMoves (s : TetrisState) :
    (tickTimers s).nMovesWhileLocking = s.nMovesWhileLocking := by
  unfold tickTimers; split <;> rfl

theorem tickTimers_lockingTimer (s : TetrisState) :
    (s.isOnGround = true ∧
      (tickTimers s).lockingTimer = s.lockingTimer + s.timeStep) ∨
    (s.isOnGround = false ∧ (tickTimers s).lockingTimer = 0) := by
  unfold tickTimers
  split
  · rename_i h; exact Or.inl ⟨h, rfl⟩
  · rename_i h; exact Or.inr ⟨by simpa using h, rfl⟩

/-- The left/right arbitration of simultaneous input in `Tetris::update`. -/
def arbPair (s : TetrisState) (moveRight moveLeft : Bool) : Bool × Bool :=
  if moveLeft ∧ moveRight then
    if !s.moveRightPrev then (moveRight, false)
    else if !s.moveLeftPrev then (false, moveLeft)
    else if s.motion = Motion.kLeft then (false, moveLeft)
    else (moveRight, false)
  else (moveRight, moveLeft)

/-- The tail of the frame body after the timer prologue: horizontal input,
previous-input bookkeeping, gravity, lock check. -/
def postTick (t : TetrisState) (sd a1 a2 mlp mrp : Bool) : TetrisState :=
  (TetrisState.gravity
    { t.horizInput a1 a2 with moveLeftPrev := mlp, moveRightPrev := mrp }
    sd).checkLock

/-- `Tetris::update`'s unpaused frame body decomposes into the named
stages. -/
theorem updateMain_eq (s : TetrisState) (sd mr ml : Bool) :
    s.updateMain sd mr ml =
      postTick (tickTimers s) sd (arbPair (tickTimers s) mr ml).1
        (arbPair (tickTimers s) mr ml).2 ml mr :=
  rfl

/-- The post-prologue stages preserve the invariant: a grounded flag with a
grounded board is disarmed by the horizontal block (which zeroes the timer on
any successful grounded move) or the board stays grounded; otherwise the
incoming timer is already in range. -/
theorem postTick_inv (t : TetrisState) (sd a1 a2 mlp mrp : Bool)
    (hts0 : 0 ≤ t.timeStep) (hts1 : t.timeStep ≤ kLockDownTimeLimit)
    (hlk0 : 0 ≤ t.lockingTimer)
    (hpaused : t.pausedForLinesClear = false)
    (hcase : (t.board.isOnGround = true ∧ t.isOnGround = true) ∨
      t.lockingTimer ≤ kLockDownTimeLimit) :
    CtrlInv (postTick t sd a1 a2 mlp mrp) ∧
      (postTick t sd a1 a2 mlp mrp).timeStep = t.timeStep := by
  obtain ⟨hht, hhg, hhp, hhc, hhl, hhb⟩ := horizInput_spec t a1 a2
  have h1 : 0 ≤ (t.horizInput a1 a2).timeStep := by rw [hht]; exact hts0
  have h2 : (t.horizInput a1 a2).timeStep ≤ kLockDownTimeLimit := by
    rw [hht]; exact hts1
  have h3 : 0 ≤ (t.horizInput a1 a2).lockingTimer := by
    rcases hhl with h | h
    · rw [h]; exact hlk0
    · rw [h]
  have h4 : (t.horizInput a1 a2).board.isOnGround = false →
      (t.horizInput a1 a2).lockingTimer ≤ kLockDownTimeLimit := by
    intro hb
    rcases hhl with h | h
    · rw [h]
      rcases hcase with ⟨hgrd, hflag⟩ | hle
      · rcases hhb with hbe | himp
        · rw [hbe, hgrd] at hb
          exact Bool.noConfusion hb
        · have h0 := himp hflag
          rw [h] at h0
          rw [h0]
          norm_num [kLockDownTimeLimit]
      · exact hle
    · rw [h]; norm_num [kLockDownTimeLimit]
  have h5 : (t.horizInput a1 a2).pausedForLinesClear = false := by
    rw [hhp]; exact hpaused
  have hmain := gravityCheck_inv
    { t.horizInput a1 a2 with moveLeftPrev := mlp, moveRightPrev := mrp }
    sd h1 h2 h3 h4 h5
  exact ⟨hmain.1, hmain.2.trans hht⟩

/-- One unpaused frame body preserves the invariant and the timestep. -/
theorem updateMain_inv (s : TetrisState) (sd mr ml : Bool)
    (hts0 : 0 ≤ s.timeStep) (hts1 : s.timeStep ≤ kLockDownTimeLimit)
    (hlk0 : 0 ≤ s.lockingTimer)
    (hpsi : s.isOnGround = true →
      s.board.isOnGround = true ∨ s.lockingTimer = 0)
    (hpaused : s.pausedForLinesClear = false) :
    CtrlInv (s.updateMain sd mr ml) ∧
      (s.updateMain sd mr ml).timeStep = s.timeStep := by
  have hts0' : 0 ≤ (tickTimers s).timeStep := by
    rw [tickTimers_timeStep]; exact hts0
  have hts1' : (tickTimers s).timeStep ≤ kLockDownTimeLimit := by
    rw [tickTimers_timeStep]; exact hts1
  have hpaused' : (tickTimers s).pausedForLinesClear = false := by
    rw [tickTimers_paused]; exact hpaused
  have hlk0' : 0 ≤ (tickTimers s).lockingTimer := by
    rcases tickTimers_lockingTimer s with ⟨_, h⟩ | ⟨_, h⟩
    · rw [h]; exact add_nonneg hlk0 hts0
    · rw [h]
  have hcase : ((tickTimers s).board.isOnGround = true ∧
      (tickTimers s).isOnGround = true) ∨
      (tickTimers s).lockingTimer ≤ kLockDownTimeLimit := by
    rcases tickTimers_lockingTimer s with ⟨hflag, h⟩ | ⟨_, h⟩
    · rcases hpsi hflag with hgrd | hzero
      · exact Or.inl ⟨by rw [tickTimers_board]; exact hgrd,
          by rw [tickTimers_isOnGround]; exact hflag⟩
      · refine Or.inr ?_
        rw [h, hzero, zero_add]
        exact hts1
    · refine Or.inr ?_
      rw [h]
      norm_num [kLockDownTimeLimit]
  have hmain := postTick_inv (tickTimers s) sd (arbPair (tickTimers s) mr ml).1
    (arbPair (tickTimers s) mr ml).2 ml mr hts0' hts1' hlk0' hpaused' hcase
  rw [updateMain_eq]
  exact ⟨hmain.1, hmain.2.trans (tickTimers_timeStep s)⟩

/-- `Tetris::lock` establishes the invariant from in-range timestep and
pause data alone. -/
theorem lock_inv (s : TetrisState)
    (hts0 : 0 ≤ s.timeStep) (hts1 : s.timeStep ≤ kLockDownTimeLimit)
    (hpz : s.pausedForLinesClear = true →
      0 ≤ s.linesClearTimer ∧ s.linesClearTimer < kPauseAfterLineClear) :
    CtrlInv s.lock := by
  refine ⟨?_, ?_, ?_, ?_, ?_, ?_⟩
  · rw [lock_timeStep]; exact hts0
  · rw [lock_timeStep]; exact hts1
  · rw [lock_lockingTimer]
  · rw [lock_lockingTimer]; norm_num [kLockDownTimeLimit]
  · rw [lock_isOnGround]; intro h; exact Bool.noConfusion h
  · intro hp
    rcases lock_paused s with ⟨hpEq, hcEq⟩ | ⟨_, hc0⟩
    · rw [hpEq] at hp
      have := hpz hp
      rw [hcEq, lock_lockingTimer]
      exact ⟨this.1, this.2, rfl⟩
    · rw [hc0, lock_lockingTimer]
      exact ⟨le_refl 0, by norm_num [kPauseAfterLineClear], rfl⟩

/-- `checkLock_inv` with an unconditional timer bound. -/
theorem checkLock_inv_simple (t : TetrisState)
    (hts0 : 0 ≤ t.timeStep) (hts1 : t.timeStep ≤ kLockDownTimeLimit)
    (hlk0 : 0 ≤ t.lockingTimer) (hlk1 : t.lockingTimer ≤ kLockDownTimeLimit)
    (hpz : t.pausedForLinesClear = true →
      0 ≤ t.linesClearTimer ∧ t.linesClearTimer < kPauseAfterLineClear ∧
      t.lockingTimer = 0) :
    CtrlInv t.checkLock ∧ t.checkLock.timeStep = t.timeStep :=
  checkLock_inv t hts0 hts1 hlk0 (fun _ => hlk1) hpz

/-- `Tetris::rotate` preserves the invariant. -/
theorem rotate_inv (s : TetrisState) (rot : Rotation) (h : CtrlInv s) :
    CtrlInv (s.rotate rot) ∧ (s.rotate rot).timeStep = s.timeStep := by
  obtain ⟨h1, h2, h3, h4, h5, h6⟩ := h
  simp only [TetrisState.rotate]
  split
  · exact checkLock_inv_simple _ h1 h2 (le_refl 0)
      (by norm_num [kLockDownTimeLimit])
      (fun hp => ⟨(h6 hp).1, (h6 hp).2.1, rfl⟩)
  · exact checkLock_inv_simple _ h1 h2 h3 h4 (fun hp => h6 hp)

/-- `Tetris::hardDrop` preserves the invariant. -/
theorem hardDrop_inv (s : TetrisState) (h : CtrlInv s) :
    CtrlInv s.hardDrop ∧ s.hardDrop.timeStep = s.timeStep := by
  obtain ⟨h1, h2, h3, h4, h5, h6⟩ := h
  simp only [TetrisState.hardDrop]
  split
  · exact ⟨⟨h1, h2, h3, h4, h5, h6⟩, rfl⟩
  · constructor
    · apply lock_inv
      · exact h1
      · exact h2
      · intro hp; exact ⟨(h6 hp).1, (h6 hp).2.1⟩
    · exact lock_timeStep _

/-- The pause-ending block of `Tetris::update`: commit the clear, spawn the
next piece, drop the pause flag. -/
def pauseExit (s : TetrisState) : TetrisState :=
  { ({ s with board := s.board.clearLines } : TetrisState).spawnPiece with
    pausedForLinesClear := false }

theorem pauseExit_timeStep (s : TetrisState) :
    (pauseExit s).timeStep = s.timeStep :=
  spawnPiece_timeStep { s with board := s.board.clearLines }

theorem pauseExit_lockingTimer (s : TetrisState) :
    (pauseExit s).lockingTimer = s.lockingTimer :=
  spawnPiece_lockingTimer { s with board := s.board.clearLines }

theorem pauseExit_linesClearTimer (s : TetrisState) :
    (pauseExit s).linesClearTimer = s.linesClearTimer :=
  spawnPiece_linesClearTimer { s with board := s.board.clearLines }

theorem pauseExit_isOnGround (s : TetrisState) :
    (pauseExit s).isOnGround = s.isOnGround :=
  spawnPiece_isOnGround { s with board := s.board.clearLines }

theorem pauseExit_paused (s : TetrisState) :
    (pauseExit s).pausedForLinesClear = false := rfl

/-- While the pause timer stays below the pause duration, a frame only
accumulates the pause timer. -/
theorem update_pauseEarly (s : TetrisState) (sd mr ml : Bool)
    (hp : s.pausedForLinesClear = true)
    (hlt : s.linesClearTimer + s.timeStep < kPauseAfterLineClear) :
    s.update sd mr ml =
      { s with linesClearTimer := s.linesClearTimer + s.timeStep } := by
  simp only [TetrisState.update]
  rw [if_pos hp, if_pos ⟨hp, hlt⟩]

/-- When the pause timer expires this frame, commit the clear, spawn, leave
the pause and run the frame body. -/
theorem update_pauseEnd (s : TetrisState) (sd mr ml : Bool)
    (hp : s.pausedForLinesClear = true)
    (hge : ¬s.linesClearTimer + s.timeStep < kPauseAfterLineClear) :
    s.update sd mr ml =
      TetrisState.updateMain
        (pauseExit { s with linesClearTimer := s.linesClearTimer + s.timeStep })
        sd mr ml := by
  simp only [TetrisState.update]
  rw [if_pos hp, if_pos hp, if_neg (fun hc => hge hc.2)]
  rfl

/-- A frame outside the pause is exactly the frame body. -/
theorem update_unpaused (s : TetrisState) (sd mr ml : Bool)
    (hp : s.pausedForLinesClear = false) :
    s.update sd mr ml = s.updateMain sd mr ml := by
  simp only [TetrisState.update]
  have hp' : ¬s.pausedForLinesClear = true := by rw [hp]; exact Bool.noConfusion
  rw [if_neg hp', if_neg (fun hc => hp' hc.1), if_neg hp']

/-- `Tetris::update` preserves the invariant. -/
theorem update_inv (s : TetrisState) (sd mr ml : Bool) (h : CtrlInv s) :
    CtrlInv (s.update sd mr ml) ∧ (s.update sd mr ml).timeStep = s.timeStep := by
  obtain ⟨h1, h2, h3, h4, h5, h6⟩ := h
  by_cases hp : s.pausedForLinesClear = true
  · by_cases hlt : s.linesClearTimer + s.timeStep < kPauseAfterLineClear
    · rw [update_pauseEarly s sd mr ml hp hlt]
      refine ⟨⟨h1, h2, h3, h4, h5, ?_⟩, rfl⟩
      intro _
      exact ⟨add_nonneg (h6 hp).1 h1, hlt, (h6 hp).2.2⟩
    · rw [update_pauseEnd s sd mr ml hp hlt]
      have hmain := updateMain_inv
        (pauseExit { s with linesClearTimer := s.linesClearTimer + s.timeStep })
        sd mr ml
        (by rw [pauseExit_timeStep]; exact h1)
        (by rw [pauseExit_timeStep]; exact h2)
        (by rw [pauseExit_lockingTimer]; exact h3)
        (fun _ => Or.inr (by rw [pauseExit_lockingTimer]; exact (h6 hp).2.2))
        (pauseExit_paused _)
      refine ⟨hmain.1, hmain.2.trans ?_⟩
      rw [pauseExit_timeStep]
  · have hp' : s.pausedForLinesClear = false := by
      cases hb : s.pausedForLinesClear with
      | false => rfl
      | true => exact absurd hb hp
    rw [update_unpaused s sd mr ml hp']
    exact updateMain_inv s sd mr ml h1 h2 h3 (fun hf => Or.inl (h5 hf)) hp'

/-- `Tetris::restart` establishes the invariant outright (every timer and
flag is reset before the spawn). -/
theorem restart_inv (s : TetrisState) (lvl : Int)
    (hts0 : 0 ≤ s.timeStep) (hts1 : s.timeStep ≤ kLockDownTimeLimit) :
    CtrlInv (s.restart lvl) ∧ (s.restart lvl).timeStep = s.timeStep := by
  simp only [TetrisState.restart]
  constructor
  · refine ⟨?_, ?_, ?_, ?_, ?_, ?_⟩
    · rw [spawnPiece_timeStep]; exact hts0
    · rw [spawnPiece_timeStep]; exact hts1
    · rw [spawnPiece_lockingTimer]
    · rw [spawnPiece_lockingTimer]; norm_num [kLockDownTimeLimit]
    · intro hf
      rw [spawnPiece_isOnGround] at hf
      exact Bool.noConfusion hf
    · intro hpz
      rw [spawnPiece_paused] at hpz
      exact Bool.noConfusion hpz
  · rw [spawnPiece_timeStep]

/-- The constructor establishes the invariant for any in-range timestep. -/
theorem mkTetris_inv (b : Board) (ts : ℚ)
    (sh : Nat → List PieceKind → List PieceKind)
    (hts0 : 0 ≤ ts) (hts1 : ts ≤ kLockDownTimeLimit) :
    CtrlInv (mkTetris b ts sh) := by
  simp only [mkTetris]
  exact (restart_inv _ 1 hts0 hts1).1

/-- Controller states reachable through the public command surface from a
fresh `Tetris` object. -/
inductive Reach (b0 : Board) (ts : ℚ)
    (sh : Nat → List PieceKind → List PieceKind) : TetrisState → Prop where
  | init : Reach b0 ts sh (mkTetris b0 ts sh)
  | frame (s : TetrisState) (sd mr ml : Bool) :
      Reach b0 ts sh s → Reach b0 ts sh (s.update sd mr ml)
  | rot (s : TetrisState) (r : Rotation) :
      Reach b0 ts sh s → Reach b0 ts sh (s.rotate r)
  | drop (s : TetrisState) : Reach b0 ts sh s → Reach b0 ts sh s.hardDrop
  | reset (s : TetrisState) (lvl : Int) :
      Reach b0 ts sh s → Reach b0 ts sh (s.restart lvl)

/-- C4 (amended): in every reachable controller state (frame timestep in
`[0, kLockDownTimeLimit_]`), `lockPercent` lies in `[0,1]`; and
`linesClearPausePercent` lies in `[0,1]` whenever the line-clear pause is
active.  (Outside the pause the latter quotient can exceed 1 — see the
counterexample.) -/
theorem claim_C4 (b0 : Board) (ts : ℚ)
    (sh : Nat → List PieceKind → List PieceKind) (s : TetrisState)
    (hts0 : 0 ≤ ts) (hts1 : ts ≤ kLockDownTimeLimit)
    (hreach : Reach b0 ts sh s) :
    (0 ≤ s.lockPercent ∧ s.lockPercent ≤ 1) ∧
    (s.pausedForLinesClear = true →
      0 ≤ s.linesClearPausePercent ∧ s.linesClearPausePercent ≤ 1) := by
  have hinv : CtrlInv s := by
    induction hreach with
    | init => exact mkTetris_inv b0 ts sh hts0 hts1
    | frame s' sd mr ml _ ih => exact (update_inv s' sd mr ml ih).1
    | rot s' r _ ih => exact (rotate_inv s' r ih).1
    | drop s' _ ih => exact (hardDrop_inv s' ih).1
    | reset s' lvl _ ih => exact (restart_inv s' lvl ih.1 ih.2.1).1
  obtain ⟨_, _, h3, h4, _, h6⟩ := hinv
  constructor
  · constructor
    · exact div_nonneg h3 (by norm_num [kLockDownTimeLimit])
    · unfold TetrisState.lockPercent
      rw [div_le_one (by norm_num [kLockDownTimeLimit])]
      exact h4
  · intro hpz
    obtain ⟨hc0, hc1, _⟩ := h6 hpz
    constructor
    · exact div_nonneg hc0 (by norm_num [kPauseAfterLineClear])
    · unfold TetrisState.linesClearPausePercent
      rw [div_le_one (by norm_num [kPauseAfterLineClear])]
      exact le_of_lt hc1

theorem claim_C4_witness :
    ((0:ℚ) ≤ 1/60 ∧ (1/60:ℚ) ≤ kLockDownTimeLimit) ∧
    (0 ≤ (mkTetris (Board.mkBoard 4 4) (1/60) (fun _ l => l)).lockPercent ∧
      (mkTetris (Board.mkBoard 4 4) (1/60) (fun _ l => l)).lockPercent ≤ 1) := by
  refine ⟨⟨by norm_num, by norm_num [kLockDownTimeLimit]⟩, ?_⟩
  exact (claim_C4 (Board.mkBoard 4 4) (1/60) (fun _ l => l) _ (by norm_num)
    (by norm_num [kLockDownTimeLimit]) Reach.init).1

/-- Below both lock thresholds, `checkLock` leaves the pause timer alone. -/
theorem checkLock_linesClearTimer (t : TetrisState)
    (h1 : t.lockingTimer < kLockDownTimeLimit)
    (h2 : t.nMovesWhileLocking < kLockDownMovesLimit) :
    t.checkLock.linesClearTimer = t.linesClearTimer := by
  simp only [TetrisState.checkLock]
  split
  · rfl
  · split
    · rename_i hc
      exfalso
      rcases hc with hc | hc
      · exact absurd hc (not_le.mpr h1)
      · exact absurd hc (not_le.mpr h2)
    · rfl

/-- The first hard drop of a fresh game on a 1-row, 4-column board: the O
piece freezes into the single row, which fills, so the controller enters the
line-clear pause. -/
def c4Base : TetrisState :=
  (mkTetris (Board.mkBoard 1 4) (2/5) (fun _ l => l)).hardDrop

/-- The pause-exit frame state of the counterexample run, after the timer
prologue and the (idle) horizontal-input block. -/
def c4P : TetrisState :=
  { tickTimers (pauseExit { c4Base with
      linesClearTimer := c4Base.linesClearTimer + c4Base.timeStep }) with
    motion := Motion.kNone
    moveLeftPrev := false
    moveRightPrev := false }

/-- C4 counterexample: with frame timestep `2/5` (within the claim's scope),
one hard drop fills the single row and enters the line-clear pause; the next
frame ends the pause but leaves `linesClearTimer = 2/5`, so the reachable
post-frame state answers `linesClearPausePercent = (2/5)/(3/10) = 4/3 > 1`,
refuting the claim that the query stays in `[0,1]` at all times. -/
theorem claim_C4_counterexample :
    Reach (Board.mkBoard 1 4) (2/5) (fun _ l => l)
      (c4Base.update false false false) ∧
    (2/5 : ℚ) ≤ kLockDownTimeLimit ∧
    1 < (c4Base.update false false false).linesClearPausePercent := by
  refine ⟨Reach.frame c4Base false false false (Reach.drop _ Reach.init),
    by norm_num [kLockDownTimeLimit], ?_⟩
  have hp : c4Base.pausedForLinesClear = true := rfl
  have hclear : c4Base.linesClearTimer = 0 := rfl
  have hts : c4Base.timeStep = 2/5 := rfl
  have hge : ¬c4Base.linesClearTimer + c4Base.timeStep < kPauseAfterLineClear := by
    rw [hclear, hts]
    norm_num [kPauseAfterLineClear]
  have hkey : c4Base.update false false false =
      TetrisState.checkLock (TetrisState.gravity c4P false) := by
    rw [update_pauseEnd c4Base false false false hp hge, updateMain_eq]
    rfl
  have hPlk : c4P.lockingTimer = 0 := rfl
  have hPnm : c4P.nMovesWhileLocking = 0 := rfl
  have hPpc : c4P.linesClearTimer = 0 + 2/5 := rfl
  have hno1 : (TetrisState.gravity c4P false).lockingTimer < kLockDownTimeLimit := by
    rw [(gravity_spec c4P false).2.2.2.2.1, hPlk]
    norm_num [kLockDownTimeLimit]
  have hno2 : (TetrisState.gravity c4P false).nMovesWhileLocking <
      kLockDownMovesLimit := by
    rw [(gravity_spec c4P false).2.2.2.2.2.1, hPnm]
    norm_num [kLockDownMovesLimit]
  rw [hkey]
  unfold TetrisState.linesClearPausePercent
  rw [checkLock_linesClearTimer _ hno1 hno2, (gravity_spec c4P false).2.2.2.1, hPpc]
  norm_num [kPauseAfterLineClear]

/-! ### The 7-bag randomizer (claim C6) -/

/-- The seven tetromino kinds, in the order the constructor seeds the
bag. -/
def kindsList : List PieceKind :=
  [.kPieceI, .kPieceJ, .kPieceL, .kPieceO, .kPieceS, .kPieceT, .kPieceZ]

/-- The kind `Tetris::spawnPiece` draws next: `bag_[nextPiece_]`. -/
def TetrisState.drawnKind (s : TetrisState) : PieceKind :=
  s.bag.getD s.nextPiece .kNone

/-- The controller state after `n` consecutive spawns. -/
def drawIter (s : TetrisState) : Nat → TetrisState
  | 0 => s
  | n + 1 => drawIter s.spawnPiece n

/-- The kinds drawn by `n` consecutive spawns. -/
def drawList (s : TetrisState) : Nat → List PieceKind
  | 0 => []
  | n + 1 => s.drawnKind :: drawList s.spawnPiece n

/-- A spawn that does not finish a half leaves the bag, the shuffle state
and the cursor-plus-one. -/
theorem spawn_step (s : TetrisState) (hne : s.nextPiece + 1 ≠ kNumPieces) :
    s.spawnPiece.bag = s.bag ∧ s.spawnPiece.nextPiece = s.nextPiece + 1 ∧
    s.spawnPiece.shuffleCount = s.shuffleCount ∧
    s.spawnPiece.shuffleFn = s.shuffleFn := by
  simp only [TetrisState.spawnPiece]
  split
  · rename_i h; exact absurd h hne
  · exact ⟨rfl, rfl, rfl, rfl⟩

/-- The spawn that consumes the seventh slot copies the back half onto the
front, reshuffles the (vacated) back half, wraps the cursor and counts one
shuffle. -/
theorem spawn_wrap (s : TetrisState) (heq : s.nextPiece + 1 = kNumPieces) :
    s.spawnPiece.bag =
      s.bag.drop kNumPieces ++
        s.shuffleFn s.shuffleCount (s.bag.drop kNumPieces) ∧
    s.spawnPiece.nextPiece = 0 ∧
    s.spawnPiece.shuffleCount = s.shuffleCount + 1 ∧
    s.spawnPiece.shuffleFn = s.shuffleFn := by
  simp only [TetrisState.spawnPiece]
  split
  · exact ⟨rfl, rfl, rfl, rfl⟩
  · rename_i h; exact absurd heq h

/-- Below the boundary, `k` draws read `k` consecutive bag slots. -/
theorem drawList_seg (k : Nat) :
    ∀ u : TetrisState, u.nextPiece + k ≤ kNumPieces →
      kNumPieces ≤ u.bag.length →
      drawList u k = (List.drop u.nextPiece u.bag).take k := by
  induction k with
  | zero => intro u _ _; rfl
  | succ k ih =>
    intro u h hlen
    have h7 : kNumPieces = 7 := rfl
    have hidx : u.nextPiece < u.bag.length := by omega
    rw [show drawList u (k + 1) = u.drawnKind :: drawList u.spawnPiece k from rfl]
    by_cases hwrap : u.nextPiece + 1 = kNumPieces
    · have hk0 : k = 0 := by omega
      subst hk0
      rw [show drawList u.spawnPiece 0 = [] from rfl]
      rw [List.drop_eq_getElem_cons hidx, List.take_succ_cons, List.take_zero]
      rw [show u.drawnKind = u.bag.getD u.nextPiece .kNone from rfl]
      rw [List.getD_eq_getElem u.bag .kNone hidx]
    · obtain ⟨hb, hn, _, _⟩ := spawn_step u hwrap
      rw [ih u.spawnPiece (by rw [hn]; omega) (by rw [hb]; exact hlen)]
      rw [hb, hn]
      rw [List.drop_eq_getElem_cons hidx, List.take_succ_cons]
      rw [show u.drawnKind = u.bag.getD u.nextPiece .kNone from rfl]
      rw [List.getD_eq_getElem u.bag .kNone hidx]

/-- Below the boundary, `k` spawns only advance the cursor. -/
theorem drawIter_seg (k : Nat) :
    ∀ u : TetrisState, u.nextPiece + k < kNumPieces →
      (drawIter u k).bag = u.bag ∧
      (drawIter u k).nextPiece = u.nextPiece + k ∧
      (drawIter u k).shuffleCount = u.shuffleCount ∧
      (drawIter u k).shuffleFn = u.shuffleFn := by
  induction k with
  | zero => intro u _; exact ⟨rfl, rfl, rfl, rfl⟩
  | succ k ih =>
    intro u h
    have h7 : kNumPieces = 7 := rfl
    have hwrap : u.nextPiece + 1 ≠ kNumPieces := by omega
    obtain ⟨hb, hn, hc, hf⟩ := spawn_step u hwrap
    obtain ⟨ib, inx, ic, ifn⟩ := ih u.spawnPiece (by rw [hn]; omega)
    refine ⟨?_, ?_, ?_, ?_⟩
    · rw [show drawIter u (k + 1) = drawIter u.spawnPiece k from rfl, ib, hb]
    · rw [show drawIter u (k + 1) = drawIter u.spawnPiece k from rfl, inx, hn]
      omega
    · rw [show drawIter u (k + 1) = drawIter u.spawnPiece k from rfl, ic, hc]
    · rw [show drawIter u (k + 1) = drawIter u.spawnPiece k from rfl, ifn, hf]

theorem drawIter_succ_right (k : Nat) :
    ∀ u : TetrisState, drawIter u (k + 1) = (drawIter u k).spawnPiece := by
  induction k with
  | zero => intro u; rfl
  | succ k ih =>
    intro u
    rw [show drawIter u (k + 1 + 1) = drawIter u.spawnPiece (k + 1) from rfl,
      ih u.spawnPiece]
    rfl

/-- `Tetris::restart` up to (but excluding) its final spawn: reset the
state and reshuffle the two bag halves independently. -/
def restartBoundary (s : TetrisState) (level : Int) : TetrisState :=
  let s := { s with
    board := s.board.clear
    gameOver := false
    level := level
    secondsPerLine := secondsPerLineForLevel level
    linesCleared := 0
    score := 0
    motion := Motion.kNone
    moveLeftPrev := false
    moveRightPrev := false
    moveDownTimer := 0
    moveRepeatTimer := 0
    moveRepeatDelayTimer := 0
    isOnGround := false
    lockingTimer := 0
    pausedForLinesClear := false
    linesClearTimer := 0 }
  let s := { s with
    bag := s.shuffleFn s.shuffleCount (s.bag.take kNumPieces) ++ s.bag.drop kNumPieces
    shuffleCount := s.shuffleCount + 1 }
  { s with
    bag := s.bag.take kNumPieces ++ s.shuffleFn s.shuffleCount (s.bag.drop kNumPieces)
    shuffleCount := s.shuffleCount + 1 }

theorem restart_eq (s : TetrisState) (lvl : Int) :
    s.restart lvl = (restartBoundary s lvl).spawnPiece := rfl

/-- C6: from any bag-boundary state (cursor 0, both 14-slot-bag halves
permutations of the seven kinds) and any permutation-preserving shuffle
oracle, the next 7 draws contain each kind exactly once, the cursor cycles
through 0..6 and wraps to 0, the boundary invariant is re-established with
exactly one reshuffle consumed, and `restart` re-establishes the halves by
two independent reshuffles before its own spawn. -/
theorem claim_C6 (t : TetrisState)
    (hsh : ∀ n l, ((t.shuffleFn n l).Perm l))
    (hcursor : t.nextPiece = 0)
    (htake : (t.bag.take kNumPieces).Perm kindsList)
    (hdrop : (t.bag.drop kNumPieces).Perm kindsList) :
    (drawList t kNumPieces).Perm kindsList ∧
    (∀ i, i ≤ kNumPieces → (drawIter t i).nextPiece = i % kNumPieces) ∧
    ((drawIter t kNumPieces).nextPiece = 0 ∧
      ((drawIter t kNumPieces).bag.take kNumPieces).Perm kindsList ∧
      ((drawIter t kNumPieces).bag.drop kNumPieces).Perm kindsList ∧
      (drawIter t kNumPieces).shuffleCount = t.shuffleCount + 1 ∧
      (drawIter t kNumPieces).shuffleFn = t.shuffleFn) ∧
    (∀ lvl : Int, t.restart lvl = (restartBoundary t lvl).spawnPiece ∧
      (restartBoundary t lvl).nextPiece = t.nextPiece ∧
      ((restartBoundary t lvl).bag.take kNumPieces).Perm kindsList ∧
      ((restartBoundary t lvl).bag.drop kNumPieces).Perm kindsList ∧
      (restartBoundary t lvl).shuffleCount = t.shuffleCount + 2) := by
  have h7 : kNumPieces = 7 := rfl
  have hklen : kindsList.length = kNumPieces := rfl
  have htklen : (t.bag.take kNumPieces).length = kNumPieces :=
    htake.length_eq.trans hklen
  have hdplen : (t.bag.drop kNumPieces).length = kNumPieces :=
    hdrop.length_eq.trans hklen
  have hblen : kNumPieces ≤ t.bag.length := by
    have hmin := List.length_take kNumPieces t.bag
    rw [htklen] at hmin
    calc kNumPieces = kNumPieces ⊓ t.bag.length := hmin
      _ ≤ t.bag.length := min_le_right _ _
  have hsucc : drawIter t kNumPieces = (drawIter t 6).spawnPiece :=
    drawIter_succ_right 6 t
  obtain ⟨s6b, s6n, s6c, s6f⟩ := drawIter_seg 6 t (by rw [hcursor]; omega)
  have hn6 : (drawIter t 6).nextPiece = 6 := by rw [s6n, hcursor]
  have hwrap6 : (drawIter t 6).nextPiece + 1 = kNumPieces := by
    rw [hn6, h7]
  obtain ⟨wb, wn, wc, wf⟩ := spawn_wrap (drawIter t 6) hwrap6
  have hbag7 : (drawIter t kNumPieces).bag =
      t.bag.drop kNumPieces ++
        t.shuffleFn t.shuffleCount (t.bag.drop kNumPieces) := by
    rw [hsucc, wb, s6b, s6c, s6f]
  refine ⟨?_, ?_, ⟨?_, ?_, ?_, ?_, ?_⟩, ?_⟩
  · rw [drawList_seg kNumPieces t (by rw [hcursor]; omega) hblen, hcursor,
      List.drop_zero]
    exact htake
  · intro i hi
    by_cases hlt : i < kNumPieces
    · obtain ⟨_, hni, _, _⟩ := drawIter_seg i t (by rw [hcursor]; omega)
      rw [hni, hcursor, Nat.zero_add, Nat.mod_eq_of_lt hlt]
    · have hieq : i = kNumPieces := by omega
      subst hieq
      rw [hsucc, wn, Nat.mod_self]
  · rw [hsucc, wn]
  · rw [hbag7, List.take_left' hdplen]
    exact hdrop
  · rw [hbag7, List.drop_left' hdplen]
    exact (hsh _ _).trans hdrop
  · rw [hsucc, wc, s6c]
  · rw [hsucc, wf, s6f]
  · intro lvl
    have hl1 : (t.shuffleFn t.shuffleCount (t.bag.take kNumPieces)).length =
        kNumPieces := (hsh _ _).length_eq.trans htklen
    have hRB : (restartBoundary t lvl).bag =
        (t.shuffleFn t.shuffleCount (t.bag.take kNumPieces) ++
            t.bag.drop kNumPieces).take kNumPieces ++
          t.shuffleFn (t.shuffleCount + 1)
            ((t.shuffleFn t.shuffleCount (t.bag.take kNumPieces) ++
                t.bag.drop kNumPieces).drop kNumPieces) := rfl
    have hB1t : (t.shuffleFn t.shuffleCount (t.bag.take kNumPieces) ++
        t.bag.drop kNumPieces).take kNumPieces =
        t.shuffleFn t.shuffleCount (t.bag.take kNumPieces) :=
      List.take_left' hl1
    have hB1d : (t.shuffleFn t.shuffleCount (t.bag.take kNumPieces) ++
        t.bag.drop kNumPieces).drop kNumPieces = t.bag.drop kNumPieces :=
      List.drop_left' hl1
    refine ⟨restart_eq t lvl, rfl, ?_, ?_, ?_⟩
    · rw [hRB, hB1t, hB1d, List.take_left' hl1]
      exact (hsh _ _).trans htake
    · rw [hRB, hB1t, hB1d, List.drop_left' hl1]
      exact (hsh _ _).trans hdrop
    · rw [show (restartBoundary t lvl).shuffleCount = t.shuffleCount + 1 + 1
        from rfl]

/-- A concrete bag-boundary state: a fresh controller with the cursor reset
to the boundary and the constructor's seed bag. -/
def c6State : TetrisState :=
  { mkTetris (Board.mkBoard 2 3) 0 (fun _ l => l) with
    nextPiece := 0
    bag := kindsList ++ kindsList }

theorem claim_C6_witness :
    c6State.nextPiece = 0 ∧ (drawList c6State kNumPieces).Perm kindsList :=
  ⟨rfl, (claim_C6 c6State (fun _ l => List.Perm.refl l) rfl
    (List.Perm.refl kindsList) (List.Perm.refl kindsList)).1⟩
